import Mathlib

/-!
# Verification of the pyright cache serializer (cacheSerializer.ts)

This file gives a shallow embedding of the two codecs defined in
`src/packages/pyright-internal/src/common/cacheSerializer.ts`:

* `CacheSerializer` (the "Structural Codec"): `serialize` / `deserialize`
  with identity tracking (`_serializeValue`, `_deserializeValue`, and the
  duck-type guards `_isTextRange`, `_isParseNode`, `_isDiagnostic`), and
* `SimpleSerializer` (the "Flat Codec"): `serialize` built on a
  `JSON.stringify` replacer with a visited set.

Modelling conventions:

* JavaScript values are modelled as a heap: immediate values `JVal`
  (null, undefined, numbers, strings, booleans, functions, references)
  plus a store `Store : List HObj` mapping addresses to heap objects.
  Object identity — which the source's `WeakMap`/`WeakSet` tracking keys
  on — is address equality.
* JS numbers are modelled as `Int` (no claim involves non-integral or
  NaN arithmetic).
* A property of a plain object is either a data value or a getter that
  throws when read (`JProp.getterThrows`), which models the
  "properties that can't be serialized" the source catches.
* `Date` objects are modelled by their `toISOString` string, `RegExp`
  objects by `(source, flags)`.
* `TextRangeCollection` is a class whose definition is outside `src/`
  (only the import is visible); no claim concerns it, so the model has
  no values of that class.  The corresponding decode branch is kept and
  marked unmodelled.
* Recursive walks take an explicit `Nat` fuel (the JS recursion is
  bounded only by the host call stack); `SRes.out` / `DRes.out` mark
  fuel exhaustion, a model artifact that never occurs at sufficient fuel.
* A JS exception propagating out of a call is `.thrown`; the structural
  serializer's record branch catches it exactly where the source's
  `try`/`catch` sits.
* The serialized text is modelled in already-parsed form (`EVal`, a JSON
  value tree).  `jnorm` models the `JSON.stringify`/`JSON.parse`
  normalization (property values that are `undefined` are dropped,
  `undefined` array elements become `null`).
-/

/-- Heap addresses: object identity in the model. -/
abbrev Addr := Nat

/-- Immediate JS values: primitives, `undefined`, functions (identity of
functions is irrelevant to the codecs: they are dropped before the
identity check), and references to heap objects. -/
inductive JVal where
  | null
  | undef
  | num (n : Int)
  | str (s : String)
  | bool (b : Bool)
  | func
  | ref (a : Addr)
deriving DecidableEq, Repr

/-- An own enumerable property of a plain object: a data value, or a
getter that throws on access. -/
inductive JProp where
  | val (v : JVal)
  | getterThrows
deriving DecidableEq, Repr

/-- Heap objects.  `date` carries the `toISOString` value, `hobj` is a
plain object with its own enumerable string keys in insertion order. -/
inductive HObj where
  | date (iso : String)
  | regexp (source flags : String)
  | hmap (entries : List (JVal × JVal))
  | hset (elems : List JVal)
  | harr (elems : List JVal)
  | hobj (fields : List (String × JProp))
deriving DecidableEq, Repr

abbrev Store := List HObj

/-- Parsed JSON values (also the intermediate output of `_serializeValue`,
which may still contain `undefined` before `JSON.stringify` normalizes). -/
inductive EVal where
  | null
  | undef
  | num (n : Int)
  | str (s : String)
  | bool (b : Bool)
  | arr (items : List EVal)
  | obj (fields : List (String × EVal))
deriving Repr

/-- Decoded JS values produced by `_deserializeValue`.  The decoder only
ever builds trees (circular markers resolve to `null`), so a tree type is
adequate. -/
inductive DVal where
  | null
  | undef
  | num (n : Int)
  | str (s : String)
  | bool (b : Bool)
  | date (iso : String)
  | regexp (source flags : String)
  | dmap (entries : List (DVal × DVal))
  | dset (elems : List DVal)
  | arr (elems : List DVal)
  | obj (fields : List (String × DVal))
deriving Repr

/- The nine reserved type markers (`TYPE_MARKERS` in the source). -/

def mapTag : String := "__Map__"
def setTag : String := "__Set__"
def textRangeTag : String := "__TextRange__"
def textRangeCollectionTag : String := "__TextRangeCollection__"
def parseNodeTag : String := "__ParseNode__"
def diagnosticTag : String := "__Diagnostic__"
def dateTag : String := "__Date__"
def regExpTag : String := "__RegExp__"
def circularTag : String := "__Circular__"

def reservedTags : List String :=
  [mapTag, setTag, textRangeTag, textRangeCollectionTag, parseNodeTag,
   diagnosticTag, dateTag, regExpTag, circularTag]

/-- `SerializationContext`: `seen` is the `WeakMap<object, number>`
(an association list keyed by address; first match wins), `refs` is the
auxiliary array (created empty and never pushed to by the source), and
`refCount` the next identity to assign. -/
structure SCtx where
  seen : List (Addr × Nat)
  refs : List EVal
  refCount : Nat
deriving Repr

def initSCtx : SCtx := ⟨[], [], 0⟩

/-- Association-list lookup for the `seen` map (`WeakMap.get`). -/
def lookupSeen : List (Addr × Nat) → Addr → Option Nat
  | [], _ => none
  | (a, i) :: rest, b => if a = b then some i else lookupSeen rest b

/-- Result of a serializing walk: fuel exhaustion (model artifact), a JS
exception propagating (carrying the mutated context, since the source's
`WeakMap` mutations survive a throw), or success. -/
inductive SRes (α : Type) where
  | out
  | thrown (msg : String) (ctx : SCtx)
  | ok (x : α) (ctx : SCtx)
deriving Repr

/-- Own-property lookup on a plain object's field list. -/
def getOwn : List (String × JProp) → String → Option JProp
  | [], _ => none
  | (k, p) :: rest, key => if k = key then some p else getOwn rest key

/-- `value[k]` viewed from the duck-type guards and tagged-wrapper
builders.  Model arrays expose their numeric `length` and nothing else
(arrays in the model carry no extra named properties); `Date`, `RegExp`,
`Map` and `Set` never reach a property probe in the source's dispatch
order, so their answer is irrelevant and modelled as absent. -/
def hProp : HObj → String → Option JProp
  | .harr es, key => if key = "length" then some (.val (.num es.length)) else none
  | .hobj fs, key => getOwn fs key
  | _, _ => none

/-- `k in value` (the `in` operator does not invoke getters). -/
def hasProp (o : HObj) (k : String) : Bool := (hProp o k).isSome

/-- Reading `value[k]` where a getter may throw; an absent property reads
as `undefined`. -/
def readProp (o : HObj) (k : String) : Except String JVal :=
  match hProp o k with
  | some (.val v) => .ok v
  | some .getterThrows => .error ("Error: getter for " ++ k ++ " threw")
  | none => .ok (.undef)

/-- `_isTextRange`: `typeof value.start === 'number' &&
typeof value.length === 'number'`, short-circuiting, with getter accesses
that can throw. -/
def isTextRange (o : HObj) : Except String Bool :=
  match readProp o "start" with
  | .error m => .error m
  | .ok (.num _) =>
    (match readProp o "length" with
     | .error m => .error m
     | .ok (.num _) => .ok true
     | .ok _ => .ok false)
  | .ok _ => .ok false

/-- `_isParseNode`: `'nodeType' in value && 'id' in value &&
typeof value.start === 'number' && typeof value.length === 'number'`. -/
def isParseNode (o : HObj) : Except String Bool :=
  if hasProp o "nodeType" && hasProp o "id" then
    isTextRange o
  else
    .ok false

/-- `_isDiagnostic`: `'category' in value && 'message' in value &&
'range' in value` (the `in` operator, so no getter runs). -/
def isDiagnostic (o : HObj) : Bool :=
  hasProp o "category" && hasProp o "message" && hasProp o "range"

/-- Embedding of a raw (not recursively serialized) JS value into the
output document, as the `ParseNode` and `Diagnostic` branches do with
`value.nodeType`, `value.id`, `value.category`, `value.message`.  Only
scalar raw fields are in the model's scope; a composite raw field would
be emitted verbatim and then rewritten by `JSON.stringify`, which no
claim exercises, so it is marked unmodelled. -/
def rawScalar : JVal → Option EVal
  | .null => some .null
  | .undef => some .undef
  | .num n => some (.num n)
  | .str s => some (.str s)
  | .bool b => some (.bool b)
  | .func => some .undef
  | .ref _ => none

/-- Element-by-element serialization (`Array.from(value).map(...)` and
`value.map(...)`): a thrown exception propagates (there is no `try`
around the `Map`/`Set`/array branches). -/
def serializeList (rec : JVal → SCtx → SRes EVal) :
    List JVal → SCtx → SRes (List EVal)
  | [], ctx => .ok [] ctx
  | v :: vs, ctx =>
    match rec v ctx with
    | .out => .out
    | .thrown m c => .thrown m c
    | .ok e ctx1 =>
      match serializeList rec vs ctx1 with
      | .out => .out
      | .thrown m c => .thrown m c
      | .ok es ctx2 => .ok (e :: es) ctx2

/-- Entry-by-entry serialization of `Map` entries (key then value). -/
def serializePairs (rec : JVal → SCtx → SRes EVal) :
    List (JVal × JVal) → SCtx → SRes (List (EVal × EVal))
  | [], ctx => .ok [] ctx
  | (k, v) :: rest, ctx =>
    match rec k ctx with
    | .out => .out
    | .thrown m c => .thrown m c
    | .ok ke ctx1 =>
      match rec v ctx1 with
      | .out => .out
      | .thrown m c => .thrown m c
      | .ok ve ctx2 =>
        match serializePairs rec rest ctx2 with
        | .out => .out
        | .thrown m c => .thrown m c
        | .ok ps ctx3 => .ok ((ke, ve) :: ps) ctx3

/-- The plain-object branch: iterate own enumerable keys in order; a
getter that throws is caught and the key skipped; a child serialization
that throws is caught and the key skipped (the context mutations the
child made survive); a child that serializes to `undefined` is omitted. -/
def serializeFields (rec : JVal → SCtx → SRes EVal) :
    List (String × JProp) → SCtx → SRes (List (String × EVal))
  | [], ctx => .ok [] ctx
  | (k, p) :: rest, ctx =>
    match p with
    | .getterThrows => serializeFields rec rest ctx
    | .val v =>
      match rec v ctx with
      | .out => .out
      | .thrown _ ctx1 => serializeFields rec rest ctx1
      | .ok .undef ctx1 => serializeFields rec rest ctx1
      | .ok e ctx1 =>
        match serializeFields rec rest ctx1 with
        | .out => .out
        | .thrown m c => .thrown m c
        | .ok es ctx2 => .ok ((k, e) :: es) ctx2

/-- The `__TextRange__` wrapper: re-reads `value.start` and
`value.length` (the guard has just established they are numbers). -/
def mkTextRangeWrapper (o : HObj) (ctx : SCtx) : SRes EVal :=
  match readProp o "start", readProp o "length" with
  | .ok (.num s), .ok (.num l) =>
      .ok (.obj [(textRangeTag, .obj [("start", .num s), ("length", .num l)])]) ctx
  | .error m, _ => .thrown m ctx
  | _, .error m => .thrown m ctx
  | _, _ => .thrown "Error: text range fields changed type" ctx

/-- The `__ParseNode__` wrapper: `nodeType`, `id`, `start`, `length`,
raw. -/
def mkParseNodeWrapper (o : HObj) (ctx : SCtx) : SRes EVal :=
  match readProp o "nodeType", readProp o "id",
        readProp o "start", readProp o "length" with
  | .ok nt, .ok i, .ok (.num s), .ok (.num l) =>
      match rawScalar nt, rawScalar i with
      | some nte, some ie =>
          .ok (.obj [(parseNodeTag,
            .obj [("nodeType", nte), ("id", ie),
                  ("start", .num s), ("length", .num l)])]) ctx
      | _, _ => .thrown "unmodelled: composite raw parse-node field" ctx
  | .error m, _, _, _ => .thrown m ctx
  | _, .error m, _, _ => .thrown m ctx
  | _, _, .error m, _ => .thrown m ctx
  | _, _, _, .error m => .thrown m ctx
  | _, _, _, _ => .thrown "Error: parse node fields changed type" ctx

/-- The dispatch among the three duck-typed kinds, in source order:
`_isTextRange` first, then `_isParseNode`, then `_isDiagnostic`
(the `TextRangeCollection` `instanceof` check sits between the first
two but no model value is an instance of that external class). -/
inductive DuckKind where
  | textRange
  | parseNode
  | diagnostic
  | plain
deriving DecidableEq, Repr

def duckKind (o : HObj) : Except String DuckKind :=
  match isTextRange o with
  | .error m => .error m
  | .ok true => .ok .textRange
  | .ok false =>
    match isParseNode o with
    | .error m => .error m
    | .ok true => .ok .parseNode
    | .ok false =>
      if isDiagnostic o then .ok .diagnostic else .ok .plain

/-- The `Diagnostic` branch: `category` and `message` are read raw (and
may throw), only `range` is recursively serialized. -/
def serializeDiag (rec : JVal → SCtx → SRes EVal) (o : HObj) (ctx : SCtx) :
    SRes EVal :=
  match readProp o "category", readProp o "message", readProp o "range" with
  | .ok c, .ok m, .ok r =>
      match rawScalar c, rawScalar m with
      | some ce, some me =>
          (match rec r ctx with
           | .out => .out
           | .thrown msg ctx1 => .thrown msg ctx1
           | .ok re ctx1 =>
               .ok (.obj [(diagnosticTag,
                 .obj [("category", ce), ("message", me),
                       ("range", re)])]) ctx1)
      | _, _ => .thrown "unmodelled: composite raw diagnostic field" ctx
  | .error m, _, _ => .thrown m ctx
  | _, .error m, _ => .thrown m ctx
  | _, _, .error m => .thrown m ctx

/-- Dispatch for arrays and plain objects: the duck-type guards run in
source order, then `Array.isArray`, then the plain-object fallback. -/
def serializeDucked (rec : JVal → SCtx → SRes EVal) (o : HObj) (ctx : SCtx) :
    SRes EVal :=
  match duckKind o with
  | .error m => .thrown m ctx
  | .ok .textRange => mkTextRangeWrapper o ctx
  | .ok .parseNode => mkParseNodeWrapper o ctx
  | .ok .diagnostic => serializeDiag rec o ctx
  | .ok .plain =>
      match o with
      | .harr elems =>
          (match serializeList rec elems ctx with
           | .out => .out
           | .thrown m c => .thrown m c
           | .ok es ctx1 => .ok (.arr es) ctx1)
      | .hobj fields =>
          (match serializeFields rec fields ctx with
           | .out => .out
           | .thrown m c => .thrown m c
           | .ok fs ctx1 => .ok (.obj fs) ctx1)
      | _ => .thrown "unreachable: tagged kinds dispatched earlier" ctx

/-- `_serializeValue` on a value that passed the identity check and has
just been marked as seen: dispatch on the heap object's kind.  `rec` is
the recursive serializer at one smaller fuel. -/
def serializeObject (rec : JVal → SCtx → SRes EVal) (o : HObj) (ctx : SCtx) :
    SRes EVal :=
  match o with
  | .date iso => .ok (.obj [(dateTag, .str iso)]) ctx
  | .regexp source flags =>
      .ok (.obj [(regExpTag,
        .obj [("source", .str source), ("flags", .str flags)])]) ctx
  | .hmap entries =>
      match serializePairs rec entries ctx with
      | .out => .out
      | .thrown m c => .thrown m c
      | .ok ps ctx1 =>
          .ok (.obj [(mapTag, .arr (ps.map (fun p => .arr [p.1, p.2])))]) ctx1
  | .hset elems =>
      match serializeList rec elems ctx with
      | .out => .out
      | .thrown m c => .thrown m c
      | .ok es ctx1 => .ok (.obj [(setTag, .arr es)]) ctx1
  | o =>
      -- `o` is an array or a plain object: run the duck-type guards.
      serializeDucked rec o ctx

/-- `CacheSerializer._serializeValue`.  Primitives pass through,
functions become `undefined`, then the identity check: a value already
in `seen` yields a `__Circular__` marker carrying its identity and the
walk does not descend; otherwise the value is assigned the next identity
and dispatched on its kind. -/
def serializeValue : Nat → Store → JVal → SCtx → SRes EVal
  | 0, _, _, _ => .out
  | _ + 1, _, .null, ctx => .ok .null ctx
  | _ + 1, _, .undef, ctx => .ok .undef ctx
  | _ + 1, _, .num n, ctx => .ok (.num n) ctx
  | _ + 1, _, .str s, ctx => .ok (.str s) ctx
  | _ + 1, _, .bool b, ctx => .ok (.bool b) ctx
  | _ + 1, _, .func, ctx => .ok .undef ctx
  | fuel + 1, store, .ref a, ctx =>
    match lookupSeen ctx.seen a with
    | some refId => .ok (.obj [(circularTag, .num refId)]) ctx
    | none =>
      let refId := ctx.refCount
      let ctx1 : SCtx := ⟨(a, refId) :: ctx.seen, ctx.refs, ctx.refCount + 1⟩
      match store[a]? with
      | none => .thrown "model artifact: dangling reference" ctx1
      | some o => serializeObject (serializeValue fuel store) o ctx1

/-!
## `JSON.stringify` / `JSON.parse` normalization

`CacheSerializer.serialize` ends with `JSON.stringify({version: 1, data,
refs})` and `deserialize` starts with `JSON.parse`.  For the tree the
serializer emits, the composition of the two is the identity except that
an `undefined` property value is dropped and an `undefined` array
element becomes `null`.  `jnorm` performs exactly that rewriting.
-/

mutual

def jnorm : EVal → EVal
  | .arr es => .arr (jnormList es)
  | .obj fs => .obj (jnormFields fs)
  | .null => .null
  | .undef => .undef
  | .num n => .num n
  | .str s => .str s
  | .bool b => .bool b

def jnormList : List EVal → List EVal
  | [] => []
  | e :: es =>
    (match jnorm e with
     | .undef => .null
     | x => x) :: jnormList es

def jnormFields : List (String × EVal) → List (String × EVal)
  | [] => []
  | (k, v) :: fs =>
    match jnorm v with
    | .undef => jnormFields fs
    | x => (k, x) :: jnormFields fs

end

/-- The serialized document, in parsed form:
`{ version: 1, data: <encoded tree>, refs: <auxiliary refs> }`. -/
def mkDoc (data : EVal) (refs : List EVal) : EVal :=
  jnorm (.obj [("version", .num 1), ("data", data), ("refs", .arr refs)])

/-- `CacheSerializer.serialize`, up to the final `JSON.stringify`
(the document is returned in parsed form).  `none` models a propagating
exception (or fuel exhaustion, a model artifact). -/
def serialize (fuel : Nat) (store : Store) (v : JVal) : Option EVal :=
  match serializeValue fuel store v initSCtx with
  | .ok e ctx => some (mkDoc e ctx.refs)
  | _ => none

/-!
## The decoder
-/

/-- `DeserializationContext`: `refs` is the `Map<number, any>` used by
the circular branch.  The source creates it empty and never calls
`context.refs.set`, so the embedding only ever reads it. -/
structure DCtx where
  refs : List (Int × DVal)
deriving Repr

def initDCtx : DCtx := ⟨[]⟩

/-- `context.refs.get` (with `has` folded in: `none` means absent). -/
def lookupRefs : List (Int × DVal) → Int → Option DVal
  | [], _ => none
  | (k, d) :: rest, n => if k = n then some d else lookupRefs rest n

/-- Result of a decoding walk. -/
inductive DRes (α : Type) where
  | out
  | thrown (msg : String)
  | ok (x : α)
deriving Repr

/-- Field lookup on a parsed JSON object. -/
def jlook : List (String × EVal) → String → Option EVal
  | [], _ => none
  | (k, v) :: rest, key => if k = key then some v else jlook rest key

/-- The `value[TAG] !== undefined` probe: a field explicitly holding
`undefined` reads as absent. -/
def jfieldOpt (fs : List (String × EVal)) (k : String) : Option EVal :=
  match jlook fs k with
  | some .undef => none
  | r => r

/-- `parsed.k` at the top level of `deserialize` (reading a property of
a possibly non-object parse result yields `undefined`). -/
def jget (e : EVal) (k : String) : EVal :=
  match e with
  | .obj fs => (jlook fs k).getD .undef
  | _ => (.undef)

/-- `!parsed.version || parsed.version !== 1` rejects exactly the values
that are not strictly the number `1` (the number `1` is truthy, so the
first disjunct adds nothing). -/
def isVersionOne : EVal → Bool
  | .num n => n == 1
  | _ => false

/-- `const { k } = p`: destructuring reads the property, yields
`undefined` when absent or when `p` is a non-object primitive, and
throws when `p` is `null`/`undefined`. -/
def destructure (p : EVal) (k : String) : DRes EVal :=
  match p with
  | .null => .thrown "TypeError: cannot destructure null"
  | .undef => .thrown "TypeError: cannot destructure undefined"
  | .obj fs => .ok ((jlook fs k).getD .undef)
  | _ => .ok (.undef)

/-- `[k, v] = entry` destructuring for `Map` entries.  A non-array entry
is not iterable in the model (JS string iteration is outside scope). -/
def entryParts : EVal → DRes (EVal × EVal)
  | .arr [] => .ok (.undef, .undef)
  | .arr [k] => .ok (k, .undef)
  | .arr (k :: v :: _) => .ok (k, v)
  | _ => .thrown "TypeError: entry is not iterable"

/-- Raw embedding of an already-parsed JSON value into a decoded value:
the `TextRange`, `ParseNode` and `Diagnostic` branches return some
payload fields verbatim (`return { start, length }` etc.), so those
fields are plain parsed data, copied structurally. -/
def rawCopyList (rec : EVal → DRes DVal) : List EVal → DRes (List DVal)
  | [] => .ok []
  | e :: es =>
    match rec e with
    | .out => .out
    | .thrown m => .thrown m
    | .ok d =>
      match rawCopyList rec es with
      | .out => .out
      | .thrown m => .thrown m
      | .ok ds => .ok (d :: ds)

def rawCopyFields (rec : EVal → DRes DVal) :
    List (String × EVal) → DRes (List (String × DVal))
  | [] => .ok []
  | (k, v) :: fs =>
    match rec v with
    | .out => .out
    | .thrown m => .thrown m
    | .ok d =>
      match rawCopyFields rec fs with
      | .out => .out
      | .thrown m => .thrown m
      | .ok ds => .ok ((k, d) :: ds)

def rawOfE : Nat → EVal → DRes DVal
  | 0, _ => .out
  | _ + 1, .null => .ok .null
  | _ + 1, .undef => .ok .undef
  | _ + 1, .num n => .ok (.num n)
  | _ + 1, .str s => .ok (.str s)
  | _ + 1, .bool b => .ok (.bool b)
  | fuel + 1, .arr es =>
    match rawCopyList (rawOfE fuel) es with
    | .out => .out
    | .thrown m => .thrown m
    | .ok ds => .ok (.arr ds)
  | fuel + 1, .obj fs =>
    match rawCopyFields (rawOfE fuel) fs with
    | .out => .out
    | .thrown m => .thrown m
    | .ok ds => .ok (.obj ds)

/-- `value.map((item) => this._deserializeValue(item, ...))`. -/
def deserializeList (rec : EVal → DRes DVal) : List EVal → DRes (List DVal)
  | [] => .ok []
  | e :: es =>
    match rec e with
    | .out => .out
    | .thrown m => .thrown m
    | .ok d =>
      match deserializeList rec es with
      | .out => .out
      | .thrown m => .thrown m
      | .ok ds => .ok (d :: ds)

/-- `value[__Map__].map(([k, v]) => [des k, des v])`. -/
def deserializePairs (rec : EVal → DRes DVal) :
    List EVal → DRes (List (DVal × DVal))
  | [] => .ok []
  | e :: es =>
    match entryParts e with
    | .out => .out
    | .thrown m => .thrown m
    | .ok (ke, ve) =>
      match rec ke with
      | .out => .out
      | .thrown m => .thrown m
      | .ok kd =>
        match rec ve with
        | .out => .out
        | .thrown m => .thrown m
        | .ok vd =>
          match deserializePairs rec es with
          | .out => .out
          | .thrown m => .thrown m
          | .ok ps => .ok ((kd, vd) :: ps)

/-- The plain-object decode branch: every own key is kept, its value
recursively decoded. -/
def deserializeFields (rec : EVal → DRes DVal) :
    List (String × EVal) → DRes (List (String × DVal))
  | [] => .ok []
  | (k, v) :: fs =>
    match rec v with
    | .out => .out
    | .thrown m => .thrown m
    | .ok d =>
      match deserializeFields rec fs with
      | .out => .out
      | .thrown m => .thrown m
      | .ok ds => .ok ((k, d) :: ds)

/-- `CacheSerializer._deserializeValue`: primitives pass through, then
the tag probes run in source order (`__Circular__`, `__Date__`,
`__RegExp__`, `__Map__`, `__Set__`, `__TextRange__`,
`__TextRangeCollection__`, `__ParseNode__`, `__Diagnostic__`), then
arrays, then the plain-object fallback.  `ctx` is threaded unchanged —
the source never writes to `context.refs` — and `refs` (the document's
auxiliary list) is accepted but never read, exactly as in the source. -/
def deserializeValue : Nat → EVal → DCtx → EVal → DRes DVal
  | 0, _, _, _ => .out
  | _ + 1, .null, _, _ => .ok .null
  | _ + 1, .undef, _, _ => .ok .undef
  | _ + 1, .num n, _, _ => .ok (.num n)
  | _ + 1, .str s, _, _ => .ok (.str s)
  | _ + 1, .bool b, _, _ => .ok (.bool b)
  | fuel + 1, .arr items, ctx, refs =>
    (match deserializeList (fun e => deserializeValue fuel e ctx refs) items with
     | .out => .out
     | .thrown m => .thrown m
     | .ok ds => .ok (.arr ds))
  | fuel + 1, .obj fs, ctx, refs =>
    match jfieldOpt fs circularTag with
    | some rv =>
      (match rv with
       | .num n =>
         (match lookupRefs ctx.refs n with
          | some d => d |> .ok
          | none => .ok .null)
       | _ => .ok .null)
    | none =>
    match jfieldOpt fs dateTag with
    | some (.str s) => .ok (.date s)
    | some _ => .thrown "unmodelled: non-string Date payload"
    | none =>
    match jfieldOpt fs regExpTag with
    | some p =>
      (match destructure p "source", destructure p "flags" with
       | .thrown m, _ => .thrown m
       | _, .thrown m => .thrown m
       | .out, _ => .out
       | _, .out => .out
       | .ok (.str s), .ok (.str f) => .ok (.regexp s f)
       | .ok _, .ok _ => .thrown "unmodelled: non-string RegExp payload")
    | none =>
    match jfieldOpt fs mapTag with
    | some (.arr es) =>
      (match deserializePairs (fun e => deserializeValue fuel e ctx refs) es with
       | .out => .out
       | .thrown m => .thrown m
       | .ok ps => .ok (.dmap ps))
    | some _ => .thrown "TypeError: value.map is not a function"
    | none =>
    match jfieldOpt fs setTag with
    | some (.arr es) =>
      (match deserializeList (fun e => deserializeValue fuel e ctx refs) es with
       | .out => .out
       | .thrown m => .thrown m
       | .ok ds => .ok (.dset ds))
    | some _ => .thrown "TypeError: value.map is not a function"
    | none =>
    match jfieldOpt fs textRangeTag with
    | some p =>
      (match destructure p "start", destructure p "length" with
       | .thrown m, _ => .thrown m
       | _, .thrown m => .thrown m
       | .out, _ => .out
       | _, .out => .out
       | .ok se, .ok le =>
         (match rawOfE (fuel + 1) se, rawOfE (fuel + 1) le with
          | .thrown m, _ => .thrown m
          | _, .thrown m => .thrown m
          | .out, _ => .out
          | _, .out => .out
          | .ok sd, .ok ld => .ok (.obj [("start", sd), ("length", ld)])))
    | none =>
    match jfieldOpt fs textRangeCollectionTag with
    | some _ => .thrown "unmodelled: TextRangeCollection is defined outside src"
    | none =>
    match jfieldOpt fs parseNodeTag with
    | some p =>
      (match destructure p "nodeType", destructure p "id",
             destructure p "start", destructure p "length" with
       | .thrown m, _, _, _ => .thrown m
       | _, .thrown m, _, _ => .thrown m
       | _, _, .thrown m, _ => .thrown m
       | _, _, _, .thrown m => .thrown m
       | .out, _, _, _ => .out
       | _, .out, _, _ => .out
       | _, _, .out, _ => .out
       | _, _, _, .out => .out
       | .ok nte, .ok ie, .ok se, .ok le =>
         (match rawOfE (fuel + 1) nte, rawOfE (fuel + 1) ie,
                rawOfE (fuel + 1) se, rawOfE (fuel + 1) le with
          | .thrown m, _, _, _ => .thrown m
          | _, .thrown m, _, _ => .thrown m
          | _, _, .thrown m, _ => .thrown m
          | _, _, _, .thrown m => .thrown m
          | .out, _, _, _ => .out
          | _, .out, _, _ => .out
          | _, _, .out, _ => .out
          | _, _, _, .out => .out
          | .ok ntd, .ok id2, .ok sd, .ok ld =>
            .ok (.obj [("nodeType", ntd), ("id", id2),
                       ("start", sd), ("length", ld)])))
    | none =>
    match jfieldOpt fs diagnosticTag with
    | some p =>
      (match destructure p "category", destructure p "message",
             destructure p "range" with
       | .thrown m, _, _ => .thrown m
       | _, .thrown m, _ => .thrown m
       | _, _, .thrown m => .thrown m
       | .out, _, _ => .out
       | _, .out, _ => .out
       | _, _, .out => .out
       | .ok ce, .ok me, .ok re =>
         (match rawOfE (fuel + 1) ce, rawOfE (fuel + 1) me,
                deserializeValue fuel re ctx refs with
          | .thrown m, _, _ => .thrown m
          | _, .thrown m, _ => .thrown m
          | _, _, .thrown m => .thrown m
          | .out, _, _ => .out
          | _, .out, _ => .out
          | _, _, .out => .out
          | .ok cd, .ok md, .ok rd =>
            .ok (.obj [("category", cd), ("message", md), ("range", rd)])))
    | none =>
      match deserializeFields (fun e => deserializeValue fuel e ctx refs) fs with
      | .out => .out
      | .thrown m => .thrown m
      | .ok ds => .ok (.obj ds)

/-- `CacheSerializer.deserialize`, after `JSON.parse`.  The input is the
parse outcome (`.error msg` models text that is not well-formed JSON).
Everything inside the source's `try` that throws — the parse failure,
the version gate's `Error('Unsupported cache version')`, or a `TypeError`
during the walk — is re-raised as
`Failed to deserialize cache: <inner error>`. -/
def deserialize (fuel : Nat) (input : Except String EVal) : Except String DVal :=
  match input with
  | .error msg => .error ("Failed to deserialize cache: " ++ msg)
  | .ok parsed =>
    if isVersionOne (jget parsed "version") then
      match deserializeValue fuel (jget parsed "data") initDCtx (jget parsed "refs") with
      | .ok d => .ok d
      | .thrown m => .error ("Failed to deserialize cache: " ++ m)
      | .out => .error "model artifact: fuel exhausted"
    else
      .error "Failed to deserialize cache: Error: Unsupported cache version"

/-!
## The Flat Codec (`SimpleSerializer.serialize`)

`SimpleSerializer.serialize` is `JSON.stringify(data, replacer)` with a
`WeakSet` of visited composites.  Two host behaviours matter:

* Per ECMA-262 (`SerializeJSONProperty`), `JSON.stringify` calls a
  value's `toJSON` *before* the replacer.  `Date.prototype.toJSON`
  therefore turns every `Date` into its ISO string before the replacer
  can see it: the replacer's `value instanceof Date` branch never runs,
  and a `Date` is emitted as a plain string (and never enters the
  visited set).
* The wrapper objects the replacer returns (`{_type: 'Map', entries}`,
  the `entries` array, the pair arrays) are fresh objects, distinct from
  every user value, so adding them to the visited set is unobservable;
  the model recurses into their contents directly.  The original keys,
  values, members and properties they contain are walked by `stringify`
  with the replacer applied again, which is the recursion below.

`seen` is the visited set (a list of addresses).  It only grows, so a
composite reappearing anywhere later in the walk — cyclically or merely
shared — is replaced by the literal string marker. -/
inductive QRes (α : Type) where
  | out
  | thrown (msg : String) (seen : List Addr)
  | ok (x : α) (seen : List Addr)
deriving Repr

/-- An `undefined` element of a JSON array stringifies as `null`. -/
def arrElem : EVal → EVal
  | .undef => .null
  | e => e

def simpleList (rec : JVal → List Addr → QRes EVal) :
    List JVal → List Addr → QRes (List EVal)
  | [], seen => .ok [] seen
  | v :: vs, seen =>
    match rec v seen with
    | .out => .out
    | .thrown m s => .thrown m s
    | .ok e seen1 =>
      match simpleList rec vs seen1 with
      | .out => .out
      | .thrown m s => .thrown m s
      | .ok es seen2 => .ok (arrElem e :: es) seen2

def simplePairs (rec : JVal → List Addr → QRes EVal) :
    List (JVal × JVal) → List Addr → QRes (List EVal)
  | [], seen => .ok [] seen
  | (k, v) :: rest, seen =>
    match rec k seen with
    | .out => .out
    | .thrown m s => .thrown m s
    | .ok ke seen1 =>
      match rec v seen1 with
      | .out => .out
      | .thrown m s => .thrown m s
      | .ok ve seen2 =>
        match simplePairs rec rest seen2 with
        | .out => .out
        | .thrown m s => .thrown m s
        | .ok ps seen3 => .ok (.arr [arrElem ke, arrElem ve] :: ps) seen3

/-- Plain-object stringification: own enumerable keys; a property whose
processed value is `undefined` is dropped; a getter that throws
propagates (`SimpleSerializer` has no `try`). -/
def simpleFields (rec : JVal → List Addr → QRes EVal) :
    List (String × JProp) → List Addr → QRes (List (String × EVal))
  | [], seen => .ok [] seen
  | (k, p) :: rest, seen =>
    match p with
    | .getterThrows => .thrown ("Error: getter for " ++ k ++ " threw") seen
    | .val v =>
      match rec v seen with
      | .out => .out
      | .thrown m s => .thrown m s
      | .ok .undef seen1 => simpleFields rec rest seen1
      | .ok e seen1 =>
        match simpleFields rec rest seen1 with
        | .out => .out
        | .thrown m s => .thrown m s
        | .ok es seen2 => .ok ((k, e) :: es) seen2

/-- One `SerializeJSONProperty` step of `JSON.stringify(data, replacer)`
with `SimpleSerializer`'s replacer. -/
def simpleSer : Nat → Store → JVal → List Addr → QRes EVal
  | 0, _, _, _ => .out
  | _ + 1, _, .null, seen => .ok .null seen
  | _ + 1, _, .undef, seen => .ok .undef seen
  | _ + 1, _, .num n, seen => .ok (.num n) seen
  | _ + 1, _, .str s, seen => .ok (.str s) seen
  | _ + 1, _, .bool b, seen => .ok (.bool b) seen
  | _ + 1, _, .func, seen => .ok .undef seen
  | fuel + 1, store, .ref a, seen =>
    match store[a]? with
    | none => .thrown "model artifact: dangling reference" seen
    | some (.date iso) => .ok (.str iso) seen
    | some o =>
      if seen.contains a then
        .ok (.str "[Circular]") seen
      else
        let seen1 := a :: seen
        match o with
        | .regexp _ _ => .ok (.obj []) seen1
        | .hmap entries =>
          (match simplePairs (simpleSer fuel store) entries seen1 with
           | .out => .out
           | .thrown m s => .thrown m s
           | .ok ps seen2 =>
             .ok (.obj [("_type", .str "Map"), ("entries", .arr ps)]) seen2)
        | .hset elems =>
          (match simpleList (simpleSer fuel store) elems seen1 with
           | .out => .out
           | .thrown m s => .thrown m s
           | .ok es seen2 =>
             .ok (.obj [("_type", .str "Set"), ("values", .arr es)]) seen2)
        | .harr elems =>
          (match simpleList (simpleSer fuel store) elems seen1 with
           | .out => .out
           | .thrown m s => .thrown m s
           | .ok es seen2 => .ok (.arr es) seen2)
        | .hobj fields =>
          (match simpleFields (simpleSer fuel store) fields seen1 with
           | .out => .out
           | .thrown m s => .thrown m s
           | .ok es seen2 => .ok (.obj es) seen2)
        | .date _ => .ok .null seen1

/-- `SimpleSerializer.serialize`, up to the final text rendering.
`JSON.stringify` returns no string at all when the processed root is
`undefined`. -/
def simpleSerialize (fuel : Nat) (store : Store) (v : JVal) : Option EVal :=
  match simpleSer fuel store v [] with
  | .ok .undef _ => none
  | .ok e _ => some e
  | _ => none

/-!
## Basic unfolding lemmas for the serializer
-/

/-- Revisiting a value already in `seen` yields the circular marker with
the stored identity, leaving the context untouched, regardless of what
kind of object the address holds. -/
theorem serializeValue_ref_seen (fuel : Nat) (store : Store) (a : Addr)
    (ctx : SCtx) (i : Nat) (h : lookupSeen ctx.seen a = some i) :
    serializeValue (fuel + 1) store (.ref a) ctx
      = .ok (.obj [(circularTag, .num i)]) ctx := by
  simp [serializeValue, h]

/-- First visit: the value is assigned identity `ctx.refCount`, marked,
and dispatched on its kind. -/
theorem serializeValue_ref_unseen (fuel : Nat) (store : Store) (a : Addr)
    (ctx : SCtx) (o : HObj) (h : lookupSeen ctx.seen a = none)
    (hget : store[a]? = some o) :
    serializeValue (fuel + 1) store (.ref a) ctx
      = serializeObject (serializeValue fuel store) o
          ⟨(a, ctx.refCount) :: ctx.seen, ctx.refs, ctx.refCount + 1⟩ := by
  simp [serializeValue, h, hget]

/-- A plain object with numeric `start` and `length` fields is
dispatched to the `__TextRange__` branch, whatever else it carries. -/
theorem serializeObject_textRange (rec : JVal → SCtx → SRes EVal)
    (fs : List (String × JProp)) (ctx : SCtx) (s l : Int)
    (hs : getOwn fs "start" = some (.val (.num s)))
    (hl : getOwn fs "length" = some (.val (.num l))) :
    serializeObject rec (.hobj fs) ctx
      = .ok (.obj [(textRangeTag,
          .obj [("start", .num s), ("length", .num l)])]) ctx := by
  simp [serializeObject, serializeDucked, duckKind, isTextRange, readProp,
    hProp, hs, hl, mkTextRangeWrapper]

/-!
## C10: the text-range guard shadows the parse-node branch
-/

/-- Any object satisfying `_isParseNode` satisfies `_isTextRange`: the
parse-node guard's last two conjuncts are exactly the text-range guard. -/
theorem isParseNode_imp_isTextRange (o : HObj)
    (h : isParseNode o = .ok true) : isTextRange o = .ok true := by
  unfold isParseNode at h
  split at h
  · exact h
  · exact absurd h (by simp [pure, Except.pure])

/-- C10: every object whose `start` and `length` properties are numbers
is encoded as a `__TextRange__` wrapper holding only those two fields
(everything else it carries is dropped); in particular the guard
implication makes the `__ParseNode__` branch unreachable. -/
theorem parse_node_branch_shadowed_by_text_range :
    (∀ o : HObj, isParseNode o = .ok true → isTextRange o = .ok true)
    ∧ (∀ (fuel : Nat) (store : Store) (a : Addr) (ctx : SCtx)
        (fs : List (String × JProp)) (s l : Int),
        store[a]? = some (.hobj fs) →
        getOwn fs "start" = some (.val (.num s)) →
        getOwn fs "length" = some (.val (.num l)) →
        lookupSeen ctx.seen a = none →
        serializeValue (fuel + 1) store (.ref a) ctx
          = .ok (.obj [(textRangeTag,
              .obj [("start", .num s), ("length", .num l)])])
              ⟨(a, ctx.refCount) :: ctx.seen, ctx.refs, ctx.refCount + 1⟩) := by
  constructor
  · exact isParseNode_imp_isTextRange
  · intro fuel store a ctx fs s l hget hs hl hseen
    rw [serializeValue_ref_unseen fuel store a ctx _ hseen hget]
    exact serializeObject_textRange _ fs _ s l hs hl

/-- A record that merely happens to have numeric `start`/`length` plus
other data, used as the concrete witness input. -/
def textRangeLikeStore : Store :=
  [.hobj [("start", .val (.num 1)), ("length", .val (.num 2)),
          ("extra", .val (.str "kept nowhere"))]]

theorem parse_node_branch_shadowed_by_text_range_witness :
    (isParseNode (.hobj [("nodeType", .val (.num 7)), ("id", .val (.num 8)),
        ("start", .val (.num 3)), ("length", .val (.num 4))]) = .ok true
      ∧ isTextRange (.hobj [("nodeType", .val (.num 7)), ("id", .val (.num 8)),
        ("start", .val (.num 3)), ("length", .val (.num 4))]) = .ok true)
    ∧ serializeValue 1 textRangeLikeStore (.ref 0) initSCtx
        = .ok (.obj [(textRangeTag,
            .obj [("start", .num 1), ("length", .num 2)])]) ⟨[(0, 0)], [], 1⟩ :=
  ⟨⟨rfl, parse_node_branch_shadowed_by_text_range.1 _ rfl⟩,
    parse_node_branch_shadowed_by_text_range.2 0 textRangeLikeStore 0 initSCtx
      _ 1 2 rfl rfl rfl rfl⟩

/-!
## C2: parse nodes are not encoded by the parse-node branch
-/

/-- A parse node: `nodeType`, `id`, numeric `start` and `length`. -/
def parseNodeStore : Store :=
  [.hobj [("nodeType", .val (.num 1)), ("id", .val (.num 2)),
          ("start", .val (.num 3)), ("length", .val (.num 4))]]

/-- Counterexample to C2: encoding a parse-node-shaped object yields the
`__TextRange__` wrapper `{start, length}` — not a `__ParseNode__`-tagged
wrapper with the four summary fields. -/
theorem parse_node_encodes_as_text_range_counterexample :
    serializeValue 2 parseNodeStore (.ref 0) initSCtx
      = .ok (.obj [(textRangeTag,
          .obj [("start", .num 3), ("length", .num 4)])]) ⟨[(0, 0)], [], 1⟩
    ∧ ∀ p : EVal,
        serializeValue 2 parseNodeStore (.ref 0) initSCtx
          ≠ .ok (.obj [(parseNodeTag, p)]) ⟨[(0, 0)], [], 1⟩ := by
  refine ⟨rfl, ?_⟩
  intro p h
  rw [show serializeValue 2 parseNodeStore (.ref 0) initSCtx
      = .ok (.obj [(textRangeTag,
          .obj [("start", .num 3), ("length", .num 4)])]) ⟨[(0, 0)], [], 1⟩
    from rfl] at h
  simp [textRangeTag, parseNodeTag] at h

/-- C2 amended: for every object exposing `nodeType`, `id`, a numeric
`start` and a numeric `length`, the first-visit encoding is the
`__TextRange__` wrapper holding exactly `{start, length}`; the
`__ParseNode__` branch (which would keep the four summary fields) is
shadowed by the text-range check that precedes it. -/
theorem parse_node_value_encodes_as_text_range (fuel : Nat) (store : Store)
    (a : Addr) (ctx : SCtx) (fs : List (String × JProp)) (s l : Int)
    (hget : store[a]? = some (.hobj fs))
    (_hnt : hasProp (.hobj fs) "nodeType" = true)
    (_hid : hasProp (.hobj fs) "id" = true)
    (hs : getOwn fs "start" = some (.val (.num s)))
    (hl : getOwn fs "length" = some (.val (.num l)))
    (hseen : lookupSeen ctx.seen a = none) :
    serializeValue (fuel + 1) store (.ref a) ctx
      = .ok (.obj [(textRangeTag,
          .obj [("start", .num s), ("length", .num l)])])
          ⟨(a, ctx.refCount) :: ctx.seen, ctx.refs, ctx.refCount + 1⟩ := by
  rw [serializeValue_ref_unseen fuel store a ctx _ hseen hget]
  exact serializeObject_textRange _ fs _ s l hs hl

theorem parse_node_value_encodes_as_text_range_witness :
    serializeValue 2 parseNodeStore (.ref 0) initSCtx
      = .ok (.obj [(textRangeTag,
          .obj [("start", .num 3), ("length", .num 4)])]) ⟨[(0, 0)], [], 1⟩ :=
  parse_node_value_encodes_as_text_range 1 parseNodeStore 0 initSCtx
    _ 3 4 rfl rfl rfl rfl rfl rfl

/-!
## C5: decode's version gate and parse-error wrapping
-/

/-- C5: decoding text that is not well-formed JSON fails with the
wrapped parse error (context `Failed to deserialize cache`), and a
document whose `version` is absent or not strictly the number `1` fails
with the wrapped `Unsupported cache version` error; neither case
returns a value. -/
theorem deserialize_version_gate_and_parse_wrap :
    (∀ (fuel : Nat) (msg : String),
      deserialize fuel (.error msg)
        = .error ("Failed to deserialize cache: " ++ msg))
    ∧ (∀ (fuel : Nat) (doc : EVal),
        isVersionOne (jget doc "version") = false →
        deserialize fuel (.ok doc)
          = .error "Failed to deserialize cache: Error: Unsupported cache version") := by
  constructor
  · intro fuel msg
    rfl
  · intro fuel doc h
    simp [deserialize, h]

theorem deserialize_version_gate_and_parse_wrap_witness :
    (deserialize 1 (.error "SyntaxError: Unexpected token o in JSON")
      = .error "Failed to deserialize cache: SyntaxError: Unexpected token o in JSON")
    ∧ (isVersionOne (jget (.obj [("version", .num 2), ("data", .null),
        ("refs", .arr [])]) "version") = false
      ∧ deserialize 1 (.ok (.obj [("version", .num 2), ("data", .null),
          ("refs", .arr [])]))
        = .error "Failed to deserialize cache: Error: Unsupported cache version") :=
  ⟨deserialize_version_gate_and_parse_wrap.1 1 _,
   ⟨rfl, deserialize_version_gate_and_parse_wrap.2 1 _ rfl⟩⟩

/-!
## C3: circular markers decode to the null placeholder
-/

/-- C3: the decoder's reference-resolution map is created empty
(`initDCtx`), the map is only ever read (the embedding's `DCtx` is
threaded unchanged through `deserializeValue`, mirroring the source,
which never calls `context.refs.set`), so a `__Circular__` node whose
identity misses the map — in particular every one under the initial
context — decodes to the `null` placeholder, end to end as well. -/
theorem circular_marker_decodes_to_null :
    (∀ n : Int, lookupRefs initDCtx.refs n = none)
    ∧ (∀ (fuel : Nat) (n : Int) (refs : EVal) (ctx : DCtx),
        lookupRefs ctx.refs n = none →
        deserializeValue (fuel + 1) (.obj [(circularTag, .num n)]) ctx refs
          = .ok .null)
    ∧ (∀ (fuel : Nat) (n : Int),
        deserialize (fuel + 1) (.ok (.obj [("version", .num 1),
          ("data", .obj [(circularTag, .num n)]), ("refs", .arr [])]))
          = .ok .null) := by
  refine ⟨fun _ => rfl, ?_, ?_⟩
  · intro fuel n refs ctx h
    simp [deserializeValue, jfieldOpt, jlook, h]
  · intro fuel n
    simp [deserialize, jget, jlook, isVersionOne, deserializeValue,
      jfieldOpt, initDCtx, lookupRefs]

theorem circular_marker_decodes_to_null_witness :
    lookupRefs initDCtx.refs 0 = none
    ∧ deserializeValue 1 (.obj [(circularTag, .num 0)]) initDCtx (.arr [])
        = .ok .null :=
  ⟨circular_marker_decodes_to_null.1 0,
   circular_marker_decodes_to_null.2.1 0 0 (.arr []) initDCtx rfl⟩

/-!
## C7: encode terminates on the self-referential object
-/

/-- `let a = {}; a.self = a;` -/
def selfRefStore : Store := [.hobj [("self", .val (.ref 0))]]

/-- C7: for every sufficient fuel the encoding of the self-referential
object is one and the same finished document — the walk terminates
because the second visit to the object finds it in `seen` and emits the
circular marker carrying its identity instead of descending again. -/
theorem encode_terminates_on_self_reference :
    ∀ fuel : Nat,
      serialize (fuel + 2) selfRefStore (.ref 0)
        = some (.obj [("version", .num 1),
            ("data", .obj [("self", .obj [(circularTag, .num 0)])]),
            ("refs", .arr [])]) := by
  intro fuel
  simp [serialize, serializeValue, selfRefStore, initSCtx, lookupSeen,
    serializeObject, serializeDucked, duckKind, isTextRange, isParseNode,
    isDiagnostic, readProp, hProp, hasProp, getOwn, serializeFields,
    mkDoc, jnorm, jnormFields, jnormList, circularTag]

/-!
## C8: diagnostic summarization round-trip
-/

/-- C8: encoding a diagnostic value (an object exposing `category`,
`message` and `range`) that carries one extra private field, then
decoding the resulting document, yields an object holding exactly
`category`, `message` and `range` (the range recursively decoded); the
extra field is absent from the decoded value. -/
theorem diagnostic_roundtrip_drops_extra_field
    (f g : Nat) (store : Store) (a ra : Addr) (c s l : Int) (m : String)
    (ek : String) (ep : JProp)
    (hget : store[a]? = some (.hobj
      [("category", .val (.num c)), ("message", .val (.str m)),
       ("range", .val (.ref ra)), (ek, ep)]))
    (hrange : store[ra]? = some (.hobj
      [("start", .val (.num s)), ("length", .val (.num l))]))
    (_h1 : ek ≠ "category") (_h2 : ek ≠ "message") (_h3 : ek ≠ "range")
    (h4 : ek ≠ "start") (_h5 : ek ≠ "length")
    (hra : ra ≠ a) :
    serialize (f + 2) store (.ref a)
      = some (.obj [("version", .num 1),
          ("data", .obj [(diagnosticTag,
            .obj [("category", .num c), ("message", .str m),
                  ("range", .obj [(textRangeTag,
                    .obj [("start", .num s), ("length", .num l)])])])]),
          ("refs", .arr [])])
    ∧ deserialize (g + 2) (.ok (.obj [("version", .num 1),
          ("data", .obj [(diagnosticTag,
            .obj [("category", .num c), ("message", .str m),
                  ("range", .obj [(textRangeTag,
                    .obj [("start", .num s), ("length", .num l)])])])]),
          ("refs", .arr [])]))
        = .ok (.obj [("category", .num c), ("message", .str m),
            ("range", .obj [("start", .num s), ("length", .num l)])]) := by
  have hra2 : a ≠ ra := fun h => hra h.symm
  constructor
  · simp [serialize, serializeValue, hget, hrange, lookupSeen, initSCtx,
      serializeObject, serializeDucked, serializeDiag, duckKind,
      isTextRange, isParseNode, isDiagnostic,
      readProp, hProp, hasProp, getOwn, h4, hra, hra2,
      rawScalar, mkTextRangeWrapper, mkDoc, jnorm, jnormFields, jnormList]
  · simp [deserialize, jget, jlook, isVersionOne, deserializeValue,
      jfieldOpt, destructure, rawOfE, initDCtx, lookupRefs,
      mapTag, setTag, textRangeTag, textRangeCollectionTag, parseNodeTag,
      diagnosticTag, dateTag, regExpTag, circularTag]

/-- A diagnostic with a private `_rule` field, range at address 1. -/
def diagStore : Store :=
  [.hobj [("category", .val (.num 1)), ("message", .val (.str "m")),
          ("range", .val (.ref 1)), ("_rule", .val (.str "secret"))],
   .hobj [("start", .val (.num 0)), ("length", .val (.num 3))]]

theorem diagnostic_roundtrip_drops_extra_field_witness :
    serialize 2 diagStore (.ref 0)
      = some (.obj [("version", .num 1),
          ("data", .obj [(diagnosticTag,
            .obj [("category", .num 1), ("message", .str "m"),
                  ("range", .obj [(textRangeTag,
                    .obj [("start", .num 0), ("length", .num 3)])])])]),
          ("refs", .arr [])])
    ∧ deserialize 2 (.ok (.obj [("version", .num 1),
          ("data", .obj [(diagnosticTag,
            .obj [("category", .num 1), ("message", .str "m"),
                  ("range", .obj [(textRangeTag,
                    .obj [("start", .num 0), ("length", .num 3)])])])]),
          ("refs", .arr [])]))
        = .ok (.obj [("category", .num 1), ("message", .str "m"),
            ("range", .obj [("start", .num 0), ("length", .num 3)])]) :=
  diagnostic_roundtrip_drops_extra_field 0 0 diagStore 0 1 1 0 3 "m"
    "_rule" (.val (.str "secret")) rfl rfl (by decide) (by decide)
    (by decide) (by decide) (by decide) (by decide)

/-!
## C9: the Flat Codec's tagging and circular sentinel
-/

/-- A single `Date` value. -/
def dateOnlyStore : Store := [.date "2020-01-01T00:00:00.000Z"]

/-- Counterexample to C9's `Date` part: the Flat Codec emits a `Date` as
a plain ISO string, never as a `{_type: 'Date', ...}` object —
`JSON.stringify` applies `Date.prototype.toJSON` before the replacer
runs, so the replacer's `instanceof Date` branch cannot fire. -/
theorem flat_codec_date_not_tagged_counterexample :
    simpleSerialize 2 dateOnlyStore (.ref 0)
      = some (.str "2020-01-01T00:00:00.000Z")
    ∧ ∀ fs : List (String × EVal),
        simpleSerialize 2 dateOnlyStore (.ref 0) ≠ some (.obj fs) := by
  refine ⟨rfl, ?_⟩
  intro fs h
  rw [show simpleSerialize 2 dateOnlyStore (.ref 0)
      = some (.str "2020-01-01T00:00:00.000Z") from rfl] at h
  simp at h

/-- C9 amended: the Flat Codec emits every associative mapping as an
inline `{_type: 'Map', entries: ...}` object and every unique-element
set as an inline `{_type: 'Set', values: ...}` object on first
encounter; a second encounter of any composite value other than a
`Date` anywhere in the graph is replaced by the literal sentinel string
`[Circular]`; a `Date`, however, is emitted as its plain ISO string
(the host's `toJSON` runs before the replacer, so the `Date`-tagging
branch is dead and a `Date` is never entered into the visited set). -/
theorem flat_codec_tagging_and_circular_sentinel :
    (∀ (fuel : Nat) (store : Store) (a : Addr) (seen : List Addr)
        (entries : List (JVal × JVal)) (e : EVal) (seen2 : List Addr),
        store[a]? = some (.hmap entries) →
        seen.contains a = false →
        simpleSer (fuel + 1) store (.ref a) seen = .ok e seen2 →
        ∃ ev, e = .obj [("_type", .str "Map"), ("entries", ev)])
    ∧ (∀ (fuel : Nat) (store : Store) (a : Addr) (seen : List Addr)
        (elems : List JVal) (e : EVal) (seen2 : List Addr),
        store[a]? = some (.hset elems) →
        seen.contains a = false →
        simpleSer (fuel + 1) store (.ref a) seen = .ok e seen2 →
        ∃ ev, e = .obj [("_type", .str "Set"), ("values", ev)])
    ∧ (∀ (fuel : Nat) (store : Store) (a : Addr) (seen : List Addr)
        (o : HObj),
        store[a]? = some o →
        (∀ iso, o ≠ .date iso) →
        seen.contains a = true →
        simpleSer (fuel + 1) store (.ref a) seen
          = .ok (.str "[Circular]") seen)
    ∧ (∀ (fuel : Nat) (store : Store) (a : Addr) (seen : List Addr)
        (iso : String),
        store[a]? = some (.date iso) →
        simpleSer (fuel + 1) store (.ref a) seen = .ok (.str iso) seen) := by
  refine ⟨?_, ?_, ?_, ?_⟩
  · intro fuel store a seen entries e seen2 hget hseen h
    have hs2 : a ∉ seen := by simpa using hseen
    rw [show simpleSer (fuel + 1) store (.ref a) seen
        = (match simplePairs (simpleSer fuel store) entries (a :: seen) with
           | .out => .out
           | .thrown m s => .thrown m s
           | .ok ps s2 =>
             .ok (.obj [("_type", .str "Map"), ("entries", .arr ps)]) s2)
      from by simp [simpleSer, hget, hs2]] at h
    revert h
    cases simplePairs (simpleSer fuel store) entries (a :: seen) with
    | out => intro h; cases h
    | thrown m s => intro h; cases h
    | ok ps s2 => intro h; cases h; exact ⟨.arr ps, rfl⟩
  · intro fuel store a seen elems e seen2 hget hseen h
    have hs2 : a ∉ seen := by simpa using hseen
    rw [show simpleSer (fuel + 1) store (.ref a) seen
        = (match simpleList (simpleSer fuel store) elems (a :: seen) with
           | .out => .out
           | .thrown m s => .thrown m s
           | .ok es s2 =>
             .ok (.obj [("_type", .str "Set"), ("values", .arr es)]) s2)
      from by simp [simpleSer, hget, hs2]] at h
    revert h
    cases simpleList (simpleSer fuel store) elems (a :: seen) with
    | out => intro h; cases h
    | thrown m s => intro h; cases h
    | ok es s2 => intro h; cases h; exact ⟨.arr es, rfl⟩
  · intro fuel store a seen o hget hnd hseen
    have hs2 : a ∈ seen := by simpa using hseen
    cases o with
    | date iso => exact absurd rfl (hnd iso)
    | regexp s fl => simp [simpleSer, hget, hs2]
    | hmap es => simp [simpleSer, hget, hs2]
    | hset es => simp [simpleSer, hget, hs2]
    | harr es => simp [simpleSer, hget, hs2]
    | hobj fs => simp [simpleSer, hget, hs2]
  · intro fuel store a seen iso hget
    simp [simpleSer, hget]

/-- `{k: map}` with the map also a set member, plus a revisited object. -/
def flatStore : Store :=
  [.hmap [(.str "k", .num 5)], .hset [.num 6], .hobj []]

theorem flat_codec_tagging_and_circular_sentinel_witness :
    (∃ ev, EVal.obj [("_type", .str "Map"),
        ("entries", .arr [.arr [.str "k", .num 5]])]
      = .obj [("_type", .str "Map"), ("entries", ev)])
    ∧ (∃ ev, EVal.obj [("_type", .str "Set"), ("values", .arr [.num 6])]
      = .obj [("_type", .str "Set"), ("values", ev)])
    ∧ simpleSer 1 flatStore (.ref 2) [2] = .ok (.str "[Circular]") [2]
    ∧ simpleSer 1 dateOnlyStore (.ref 0) []
        = .ok (.str "2020-01-01T00:00:00.000Z") [] :=
  ⟨flat_codec_tagging_and_circular_sentinel.1 1 flatStore 0 [] _ _ _
      rfl rfl rfl,
   flat_codec_tagging_and_circular_sentinel.2.1 1 flatStore 1 [] _ _ _
      rfl rfl rfl,
   flat_codec_tagging_and_circular_sentinel.2.2.1 0 flatStore 2 [2] _
      rfl (by intro iso h; cases h) rfl,
   flat_codec_tagging_and_circular_sentinel.2.2.2 0 dateOnlyStore 0 [] _ rfl⟩

/-!
## C4: identity assignment invariants of the encoder
-/

/-- `c2` extends `c`: every identity already assigned survives
unchanged, the counter never decreases, and the (never written) refs
array is untouched. -/
def SExt (c c2 : SCtx) : Prop :=
  (∀ a i, lookupSeen c.seen a = some i → lookupSeen c2.seen a = some i)
  ∧ c.refCount ≤ c2.refCount
  ∧ c2.refs = c.refs

theorem SExt.refl (c : SCtx) : SExt c c := ⟨fun _ _ h => h, le_refl _, rfl⟩

theorem SExt.trans {a b c : SCtx} (h1 : SExt a b) (h2 : SExt b c) :
    SExt a c :=
  ⟨fun x i hx => h2.1 x i (h1.1 x i hx), le_trans h1.2.1 h2.2.1,
   h2.2.2.trans h1.2.2⟩

/-- Well-formedness of the identity table: every assigned identity is
below the counter (so identities are handed out in increasing order),
and no two addresses share an identity. -/
def SWf (c : SCtx) : Prop :=
  (∀ a i, lookupSeen c.seen a = some i → i < c.refCount)
  ∧ ∀ a b i, lookupSeen c.seen a = some i → lookupSeen c.seen b = some i →
      a = b

/-- What one serializing step guarantees about its context: the result
context extends the input and stays well-formed.  (Fuel exhaustion
carries no context.) -/
def resOk {α : Type} (c : SCtx) : SRes α → Prop
  | .out => True
  | .thrown _ c2 => SExt c c2 ∧ (SWf c → SWf c2)
  | .ok _ c2 => SExt c c2 ∧ (SWf c → SWf c2)

/-- Marking a fresh value preserves extension and well-formedness. -/
theorem markSeen_resOk (c : SCtx) (a : Addr)
    (h : lookupSeen c.seen a = none) :
    SExt c ⟨(a, c.refCount) :: c.seen, c.refs, c.refCount + 1⟩
    ∧ (SWf c → SWf ⟨(a, c.refCount) :: c.seen, c.refs, c.refCount + 1⟩) := by
  constructor
  · refine ⟨?_, Nat.le_succ _, rfl⟩
    intro b i hb
    have hab : ¬(a = b) := by
      intro e
      rw [← e] at hb
      rw [h] at hb
      cases hb
    simpa [lookupSeen, hab] using hb
  · rintro ⟨w1, w2⟩
    constructor
    · intro b i hb
      show i < c.refCount + 1
      rw [show lookupSeen ((a, c.refCount) :: c.seen) b
          = if a = b then some c.refCount else lookupSeen c.seen b from rfl] at hb
      by_cases hab : a = b
      · rw [if_pos hab] at hb
        injection hb with hb
        omega
      · rw [if_neg hab] at hb
        exact Nat.lt_succ_of_lt (w1 b i hb)
    · intro b b2 i hb hb2
      rw [show lookupSeen ((a, c.refCount) :: c.seen) b
          = if a = b then some c.refCount else lookupSeen c.seen b from rfl] at hb
      rw [show lookupSeen ((a, c.refCount) :: c.seen) b2
          = if a = b2 then some c.refCount else lookupSeen c.seen b2 from rfl] at hb2
      by_cases hab : a = b <;> by_cases hab2 : a = b2
      · rw [← hab, ← hab2]
      · rw [if_pos hab] at hb
        rw [if_neg hab2] at hb2
        injection hb with hb
        rw [← hb] at hb2
        exact absurd (w1 b2 _ hb2) (lt_irrefl _)
      · rw [if_neg hab] at hb
        rw [if_pos hab2] at hb2
        injection hb2 with hb2
        rw [← hb2] at hb
        exact absurd (w1 b _ hb) (lt_irrefl _)
      · rw [if_neg hab] at hb
        rw [if_neg hab2] at hb2
        exact w2 b b2 i hb hb2

theorem serializeList_resOk (rec : JVal → SCtx → SRes EVal)
    (hrec : ∀ v c, resOk c (rec v c)) :
    ∀ (vs : List JVal) (c : SCtx), resOk c (serializeList rec vs c) := by
  intro vs
  induction vs with
  | nil => intro c; exact ⟨SExt.refl c, id⟩
  | cons v vs ih =>
    intro c
    have h1 := hrec v c
    cases hv : rec v c with
    | out => simp [serializeList, hv, resOk]
    | thrown m c1 =>
      rw [hv] at h1
      simpa [serializeList, hv, resOk] using h1
    | ok e c1 =>
      rw [hv] at h1
      have h2 := ih c1
      cases hl : serializeList rec vs c1 with
      | out => simp [serializeList, hv, hl, resOk]
      | thrown m c2 =>
        rw [hl] at h2
        simp only [serializeList, hv, hl]
        exact ⟨h1.1.trans h2.1, fun w => h2.2 (h1.2 w)⟩
      | ok es c2 =>
        rw [hl] at h2
        simp only [serializeList, hv, hl]
        exact ⟨h1.1.trans h2.1, fun w => h2.2 (h1.2 w)⟩

theorem serializePairs_resOk (rec : JVal → SCtx → SRes EVal)
    (hrec : ∀ v c, resOk c (rec v c)) :
    ∀ (es : List (JVal × JVal)) (c : SCtx), resOk c (serializePairs rec es c) := by
  intro es
  induction es with
  | nil => intro c; exact ⟨SExt.refl c, id⟩
  | cons kv es ih =>
    intro c
    obtain ⟨k, v⟩ := kv
    have h1 := hrec k c
    cases hk : rec k c with
    | out => simp [serializePairs, hk, resOk]
    | thrown m c1 =>
      rw [hk] at h1
      simpa [serializePairs, hk, resOk] using h1
    | ok ke c1 =>
      rw [hk] at h1
      have h2 := hrec v c1
      cases hv : rec v c1 with
      | out => simp [serializePairs, hk, hv, resOk]
      | thrown m c2 =>
        rw [hv] at h2
        simp only [serializePairs, hk, hv]
        exact ⟨h1.1.trans h2.1, fun w => h2.2 (h1.2 w)⟩
      | ok ve c2 =>
        rw [hv] at h2
        have h3 := ih c2
        cases hr : serializePairs rec es c2 with
        | out => simp [serializePairs, hk, hv, hr, resOk]
        | thrown m c3 =>
          rw [hr] at h3
          simp only [serializePairs, hk, hv, hr]
          exact ⟨(h1.1.trans h2.1).trans h3.1,
            fun w => h3.2 (h2.2 (h1.2 w))⟩
        | ok ps c3 =>
          rw [hr] at h3
          simp only [serializePairs, hk, hv, hr]
          exact ⟨(h1.1.trans h2.1).trans h3.1,
            fun w => h3.2 (h2.2 (h1.2 w))⟩

theorem serializeFields_resOk (rec : JVal → SCtx → SRes EVal)
    (hrec : ∀ v c, resOk c (rec v c)) :
    ∀ (fs : List (String × JProp)) (c : SCtx),
      resOk c (serializeFields rec fs c) := by
  intro fs
  induction fs with
  | nil => intro c; exact ⟨SExt.refl c, id⟩
  | cons kp fs ih =>
    intro c
    obtain ⟨k, p⟩ := kp
    cases p with
    | getterThrows => simpa [serializeFields] using ih c
    | val v =>
      have h1 := hrec v c
      cases hv : rec v c with
      | out => simp [serializeFields, hv, resOk]
      | thrown m c1 =>
        rw [hv] at h1
        have h2 := ih c1
        cases hr : serializeFields rec fs c1 with
        | out => simp [serializeFields, hv, hr, resOk]
        | thrown m2 c2 =>
          rw [hr] at h2
          simp only [serializeFields, hv, hr]
          exact ⟨h1.1.trans h2.1, fun w => h2.2 (h1.2 w)⟩
        | ok es c2 =>
          rw [hr] at h2
          simp only [serializeFields, hv, hr]
          exact ⟨h1.1.trans h2.1, fun w => h2.2 (h1.2 w)⟩
      | ok e c1 =>
        rw [hv] at h1
        have h2 := ih c1
        cases e with
        | undef =>
          cases hr : serializeFields rec fs c1 with
          | out => simp [serializeFields, hv, hr, resOk]
          | thrown m2 c2 =>
            rw [hr] at h2
            simp only [serializeFields, hv, hr]
            exact ⟨h1.1.trans h2.1, fun w => h2.2 (h1.2 w)⟩
          | ok es c2 =>
            rw [hr] at h2
            simp only [serializeFields, hv, hr]
            exact ⟨h1.1.trans h2.1, fun w => h2.2 (h1.2 w)⟩
        | null =>
          cases hr : serializeFields rec fs c1 with
          | out => simp [serializeFields, hv, hr, resOk]
          | thrown m2 c2 =>
            rw [hr] at h2
            simp only [serializeFields, hv, hr]
            exact ⟨h1.1.trans h2.1, fun w => h2.2 (h1.2 w)⟩
          | ok es c2 =>
            rw [hr] at h2
            simp only [serializeFields, hv, hr]
            exact ⟨h1.1.trans h2.1, fun w => h2.2 (h1.2 w)⟩
        | num n =>
          cases hr : serializeFields rec fs c1 with
          | out => simp [serializeFields, hv, hr, resOk]
          | thrown m2 c2 =>
            rw [hr] at h2
            simp only [serializeFields, hv, hr]
            exact ⟨h1.1.trans h2.1, fun w => h2.2 (h1.2 w)⟩
          | ok es c2 =>
            rw [hr] at h2
            simp only [serializeFields, hv, hr]
            exact ⟨h1.1.trans h2.1, fun w => h2.2 (h1.2 w)⟩
        | str s =>
          cases hr : serializeFields rec fs c1 with
          | out => simp [serializeFields, hv, hr, resOk]
          | thrown m2 c2 =>
            rw [hr] at h2
            simp only [serializeFields, hv, hr]
            exact ⟨h1.1.trans h2.1, fun w => h2.2 (h1.2 w)⟩
          | ok es c2 =>
            rw [hr] at h2
            simp only [serializeFields, hv, hr]
            exact ⟨h1.1.trans h2.1, fun w => h2.2 (h1.2 w)⟩
        | bool b =>
          cases hr : serializeFields rec fs c1 with
          | out => simp [serializeFields, hv, hr, resOk]
          | thrown m2 c2 =>
            rw [hr] at h2
            simp only [serializeFields, hv, hr]
            exact ⟨h1.1.trans h2.1, fun w => h2.2 (h1.2 w)⟩
          | ok es c2 =>
            rw [hr] at h2
            simp only [serializeFields, hv, hr]
            exact ⟨h1.1.trans h2.1, fun w => h2.2 (h1.2 w)⟩
        | arr its =>
          cases hr : serializeFields rec fs c1 with
          | out => simp [serializeFields, hv, hr, resOk]
          | thrown m2 c2 =>
            rw [hr] at h2
            simp only [serializeFields, hv, hr]
            exact ⟨h1.1.trans h2.1, fun w => h2.2 (h1.2 w)⟩
          | ok es c2 =>
            rw [hr] at h2
            simp only [serializeFields, hv, hr]
            exact ⟨h1.1.trans h2.1, fun w => h2.2 (h1.2 w)⟩
        | obj ofs =>
          cases hr : serializeFields rec fs c1 with
          | out => simp [serializeFields, hv, hr, resOk]
          | thrown m2 c2 =>
            rw [hr] at h2
            simp only [serializeFields, hv, hr]
            exact ⟨h1.1.trans h2.1, fun w => h2.2 (h1.2 w)⟩
          | ok es c2 =>
            rw [hr] at h2
            simp only [serializeFields, hv, hr]
            exact ⟨h1.1.trans h2.1, fun w => h2.2 (h1.2 w)⟩

theorem mkTextRangeWrapper_resOk (o : HObj) (c : SCtx) :
    resOk c (mkTextRangeWrapper o c) := by
  unfold mkTextRangeWrapper
  split <;> exact ⟨SExt.refl c, id⟩

theorem mkParseNodeWrapper_resOk (o : HObj) (c : SCtx) :
    resOk c (mkParseNodeWrapper o c) := by
  unfold mkParseNodeWrapper
  split
  · split <;> exact ⟨SExt.refl c, id⟩
  all_goals exact ⟨SExt.refl c, id⟩

theorem serializeDiag_resOk (rec : JVal → SCtx → SRes EVal)
    (hrec : ∀ v c, resOk c (rec v c)) (o : HObj) (c : SCtx) :
    resOk c (serializeDiag rec o c) := by
  unfold serializeDiag
  split
  · rename_i rv h1 h2 h3
    split
    · have h := hrec rv c
      cases hr : rec rv c with
      | out => trivial
      | thrown m2 c2 => rw [hr] at h; exact h
      | ok re c2 => rw [hr] at h; exact h
    · exact ⟨SExt.refl c, id⟩
  · exact ⟨SExt.refl c, id⟩
  · exact ⟨SExt.refl c, id⟩
  · exact ⟨SExt.refl c, id⟩

theorem serializeDucked_resOk (rec : JVal → SCtx → SRes EVal)
    (hrec : ∀ v c, resOk c (rec v c)) (o : HObj) (c : SCtx) :
    resOk c (serializeDucked rec o c) := by
  unfold serializeDucked
  cases hd : duckKind o with
  | error m => exact ⟨SExt.refl c, id⟩
  | ok k =>
    cases k with
    | textRange => exact mkTextRangeWrapper_resOk o c
    | parseNode => exact mkParseNodeWrapper_resOk o c
    | diagnostic => exact serializeDiag_resOk rec hrec o c
    | plain =>
      cases o with
      | date iso => exact ⟨SExt.refl c, id⟩
      | regexp s f => exact ⟨SExt.refl c, id⟩
      | hmap es => exact ⟨SExt.refl c, id⟩
      | hset es => exact ⟨SExt.refl c, id⟩
      | harr es =>
        have h := serializeList_resOk rec hrec es c
        cases hl : serializeList rec es c with
        | out => simp [hl, resOk]
        | thrown m c2 => rw [hl] at h; simpa [hl, resOk] using h
        | ok xs c2 => rw [hl] at h; simpa [hl, resOk] using h
      | hobj fs =>
        have h := serializeFields_resOk rec hrec fs c
        cases hl : serializeFields rec fs c with
        | out => simp [hl, resOk]
        | thrown m c2 => rw [hl] at h; simpa [hl, resOk] using h
        | ok xs c2 => rw [hl] at h; simpa [hl, resOk] using h

theorem serializeObject_resOk (rec : JVal → SCtx → SRes EVal)
    (hrec : ∀ v c, resOk c (rec v c)) (o : HObj) (c : SCtx) :
    resOk c (serializeObject rec o c) := by
  cases o with
  | date iso => exact ⟨SExt.refl c, id⟩
  | regexp s f => exact ⟨SExt.refl c, id⟩
  | hmap es =>
    have h := serializePairs_resOk rec hrec es c
    cases hp : serializePairs rec es c with
    | out => simp [serializeObject, hp, resOk]
    | thrown m c2 => rw [hp] at h; simpa [serializeObject, hp, resOk] using h
    | ok ps c2 => rw [hp] at h; simpa [serializeObject, hp, resOk] using h
  | hset es =>
    have h := serializeList_resOk rec hrec es c
    cases hl : serializeList rec es c with
    | out => simp [serializeObject, hl, resOk]
    | thrown m c2 => rw [hl] at h; simpa [serializeObject, hl, resOk] using h
    | ok xs c2 => rw [hl] at h; simpa [serializeObject, hl, resOk] using h
  | harr es => exact serializeDucked_resOk rec hrec (.harr es) c
  | hobj fs => exact serializeDucked_resOk rec hrec (.hobj fs) c

/-- Every serializing step only extends the identity table and
preserves its well-formedness. -/
theorem serializeValue_resOk :
    ∀ (fuel : Nat) (store : Store) (v : JVal) (c : SCtx),
      resOk c (serializeValue fuel store v c) := by
  intro fuel
  induction fuel with
  | zero => intro store v c; trivial
  | succ f ih =>
    intro store v c
    cases v with
    | null => exact ⟨SExt.refl c, id⟩
    | undef => exact ⟨SExt.refl c, id⟩
    | num n => exact ⟨SExt.refl c, id⟩
    | str s => exact ⟨SExt.refl c, id⟩
    | bool b => exact ⟨SExt.refl c, id⟩
    | func => exact ⟨SExt.refl c, id⟩
    | ref a =>
      cases hs : lookupSeen c.seen a with
      | some i =>
        rw [serializeValue_ref_seen f store a c i hs]
        exact ⟨SExt.refl c, id⟩
      | none =>
        have hm := markSeen_resOk c a hs
        cases hg : store[a]? with
        | none =>
          rw [show serializeValue (f + 1) store (.ref a) c
              = .thrown "model artifact: dangling reference"
                  ⟨(a, c.refCount) :: c.seen, c.refs, c.refCount + 1⟩
            from by simp [serializeValue, hs, hg]]
          exact hm
        | some o =>
          rw [serializeValue_ref_unseen f store a c o hs hg]
          have ho := serializeObject_resOk (serializeValue f store)
            (fun v2 c2 => ih store v2 c2) o
            ⟨(a, c.refCount) :: c.seen, c.refs, c.refCount + 1⟩
          cases hr : serializeObject (serializeValue f store) o
              ⟨(a, c.refCount) :: c.seen, c.refs, c.refCount + 1⟩ with
          | out => simp [hr, resOk]
          | thrown m c2 =>
            rw [hr] at ho
            exact ⟨hm.1.trans ho.1, fun w => ho.2 (hm.2 w)⟩
          | ok e c2 =>
            rw [hr] at ho
            exact ⟨hm.1.trans ho.1, fun w => ho.2 (hm.2 w)⟩

/-- C4: within one encode call, a revisited composite immediately
encodes to a circular marker carrying its stored identity (the identity
check runs before any kind dispatch — the store content at the address
is irrelevant), a first visit binds the value to the current counter
value (which then strictly increases), every successful step only
extends the identity table without reassigning, and the table stays
well-formed (identities below the counter, no identity shared by two
values) starting from the initial context. -/
theorem encode_identity_invariant :
    (∀ (fuel : Nat) (store : Store) (a : Addr) (ctx : SCtx) (i : Nat),
      lookupSeen ctx.seen a = some i →
      serializeValue (fuel + 1) store (.ref a) ctx
        = .ok (.obj [(circularTag, .num i)]) ctx)
    ∧ (∀ (fuel : Nat) (store : Store) (a : Addr) (ctx ctx2 : SCtx) (e : EVal),
        lookupSeen ctx.seen a = none →
        serializeValue (fuel + 1) store (.ref a) ctx = .ok e ctx2 →
        lookupSeen ctx2.seen a = some ctx.refCount
          ∧ ctx.refCount < ctx2.refCount)
    ∧ (∀ (fuel : Nat) (store : Store) (v : JVal) (ctx ctx2 : SCtx) (e : EVal),
        serializeValue fuel store v ctx = .ok e ctx2 →
        SExt ctx ctx2 ∧ (SWf ctx → SWf ctx2))
    ∧ SWf initSCtx := by
  refine ⟨serializeValue_ref_seen, ?_, ?_, ?_⟩
  · intro fuel store a ctx ctx2 e hseen h
    cases hg : store[a]? with
    | none => simp [serializeValue, hseen, hg] at h
    | some o =>
      rw [serializeValue_ref_unseen fuel store a ctx o hseen hg] at h
      have ho := serializeObject_resOk (serializeValue fuel store)
        (fun v2 c2 => serializeValue_resOk fuel store v2 c2) o
        ⟨(a, ctx.refCount) :: ctx.seen, ctx.refs, ctx.refCount + 1⟩
      rw [h] at ho
      constructor
      · exact ho.1.1 a ctx.refCount (by simp [lookupSeen])
      · exact Nat.lt_of_succ_le ho.1.2.1
  · intro fuel store v ctx ctx2 e h
    have := serializeValue_resOk fuel store v ctx
    rw [h] at this
    exact this
  · constructor
    · intro a i h
      simp [initSCtx, lookupSeen] at h
    · intro a b i ha hb
      simp [initSCtx, lookupSeen] at ha

theorem encode_identity_invariant_witness :
    serializeValue 1 selfRefStore (.ref 0) ⟨[(0, 0)], [], 1⟩
      = .ok (.obj [(circularTag, .num 0)]) ⟨[(0, 0)], [], 1⟩
    ∧ (lookupSeen [(0, 0)] 0 = some 0 ∧ (0 : Nat) < 1)
    ∧ (SExt initSCtx ⟨[(0, 0)], [], 1⟩
        ∧ (SWf initSCtx → SWf ⟨[(0, 0)], [], 1⟩))
    ∧ SWf initSCtx :=
  ⟨encode_identity_invariant.1 0 selfRefStore 0 ⟨[(0, 0)], [], 1⟩ 0 rfl,
   encode_identity_invariant.2.1 1 selfRefStore 0 initSCtx ⟨[(0, 0)], [], 1⟩
     (.obj [("self", .obj [(circularTag, .num 0)])]) rfl rfl,
   encode_identity_invariant.2.2.1 2 selfRefStore (.ref 0) initSCtx
     ⟨[(0, 0)], [], 1⟩ (.obj [("self", .obj [(circularTag, .num 0)])]) rfl,
   encode_identity_invariant.2.2.2⟩

/-!
## C6: per-property failure handling in the record branch

Well-formed input: every reference points into the store, no property
is a throwing getter, and an object that satisfies the diagnostic guard
carries scalar `category`/`message` values (composite raw diagnostic
fields sit outside the model, see `rawScalar`).
-/

def wfJVal (n : Nat) : JVal → Bool
  | .ref a => decide (a < n)
  | _ => true

def wfProp (n : Nat) : JProp → Bool
  | .val v => wfJVal n v
  | .getterThrows => false

/-- The raw-read diagnostic fields must be scalar data. -/
def rawOk : Option JProp → Bool
  | some (.val (.ref _)) => false
  | _ => true

def wfObj (n : Nat) : HObj → Bool
  | .date _ => true
  | .regexp _ _ => true
  | .hmap es => es.all (fun kv => wfJVal n kv.1 && wfJVal n kv.2)
  | .hset es => es.all (wfJVal n)
  | .harr es => es.all (wfJVal n)
  | .hobj fs =>
      fs.all (fun kp => wfProp n kp.2)
      && (!(isDiagnostic (.hobj fs))
          || (rawOk (getOwn fs "category") && rawOk (getOwn fs "message")))

def wfStore (store : Store) : Bool := store.all (wfObj store.length)

/-- A serializing result that is not a propagating exception. -/
def NoThrow {α : Type} (r : SRes α) : Prop :=
  ∀ m c2, r ≠ .thrown m c2

theorem getOwn_mem : ∀ (fs : List (String × JProp)) (k : String) (p : JProp),
    getOwn fs k = some p → p ∈ fs.map Prod.snd := by
  intro fs
  induction fs with
  | nil => intro k p h; cases h
  | cons kp fs ih =>
    intro k p h
    rw [show getOwn (kp :: fs) k
        = if kp.1 = k then some kp.2 else getOwn fs k from by
      obtain ⟨k2, p2⟩ := kp; rfl] at h
    by_cases he : kp.1 = k
    · rw [if_pos he] at h
      injection h with h
      rw [← h]
      exact List.mem_cons_self _ _
    · rw [if_neg he] at h
      exact List.mem_cons_of_mem _ (ih k p h)

/-- Under well-formed properties, reading any property succeeds and the
value read is itself well-formed. -/
theorem readProp_of_wf (n : Nat) (o : HObj) (hwf : wfObj n o = true) :
    ∀ k, ∃ v, readProp o k = .ok v ∧ wfJVal n v = true := by
  intro k
  cases o with
  | date iso => exact ⟨.undef, rfl, rfl⟩
  | regexp s f => exact ⟨.undef, rfl, rfl⟩
  | hmap es => exact ⟨.undef, rfl, rfl⟩
  | hset es => exact ⟨.undef, rfl, rfl⟩
  | harr es =>
    by_cases hl : k = "length"
    · refine ⟨.num es.length, ?_, rfl⟩
      simp [readProp, hProp, hl]
    · refine ⟨.undef, ?_, rfl⟩
      simp [readProp, hProp, hl]
  | hobj fs =>
    have hall : fs.all (fun kp => wfProp n kp.2) = true := by
      have := hwf
      simp only [wfObj, Bool.and_eq_true] at this
      exact this.1
    cases hg : getOwn fs k with
    | none => exact ⟨.undef, by simp [readProp, hProp, hg], rfl⟩
    | some p =>
      have hp : wfProp n p = true := by
        have hm := getOwn_mem fs k p hg
        rw [List.all_eq_true] at hall
        obtain ⟨kp, hkp, he⟩ := List.mem_map.mp hm
        have := hall kp hkp
        rw [he] at this
        exact this
      cases p with
      | getterThrows => simp [wfProp] at hp
      | val v => exact ⟨v, by simp [readProp, hProp, hg], hp⟩

/-- Under well-formedness the text-range guard cannot throw. -/
theorem isTextRange_of_wf (n : Nat) (o : HObj) (hwf : wfObj n o = true) :
    ∃ b, isTextRange o = .ok b := by
  obtain ⟨s, hs, _⟩ := readProp_of_wf n o hwf "start"
  obtain ⟨l, hl, _⟩ := readProp_of_wf n o hwf "length"
  unfold isTextRange
  rw [hs]
  cases s with
  | num s2 =>
    rw [hl]
    cases l <;> exact ⟨_, rfl⟩
  | null => exact ⟨_, rfl⟩
  | undef => exact ⟨_, rfl⟩
  | str s2 => exact ⟨_, rfl⟩
  | bool b2 => exact ⟨_, rfl⟩
  | func => exact ⟨_, rfl⟩
  | ref a => exact ⟨_, rfl⟩

/-- Under well-formedness the duck dispatch cannot throw, and its
parse-node outcome is impossible (the text-range guard shadows it):
the dispatch lands on `textRange` (with the guard established),
`diagnostic` (with that guard established), or `plain`. -/
theorem duckKind_of_wf (n : Nat) (o : HObj) (hwf : wfObj n o = true) :
    (duckKind o = .ok .textRange ∧ isTextRange o = .ok true)
    ∨ (duckKind o = .ok .diagnostic ∧ isDiagnostic o = true)
    ∨ duckKind o = .ok .plain := by
  obtain ⟨b, hb⟩ := isTextRange_of_wf n o hwf
  unfold duckKind
  rw [hb]
  cases b with
  | true => exact Or.inl ⟨rfl, rfl⟩
  | false =>
    cases hp : isParseNode o with
    | error m =>
      exfalso
      unfold isParseNode at hp
      by_cases hc : (hasProp o "nodeType" && hasProp o "id") = true
      · rw [if_pos hc] at hp
        rw [hb] at hp
        cases hp
      · rw [if_neg hc] at hp
        cases hp
    | ok bp =>
      cases bp with
      | true =>
        have := isParseNode_imp_isTextRange o hp
        rw [hb] at this
        cases this
      | false =>
        by_cases hd : isDiagnostic o = true
        · exact Or.inr (Or.inl ⟨by simp [hd], hd⟩)
        · refine Or.inr (Or.inr ?_)
          simp only [Bool.not_eq_true] at hd
          simp [hd]

/-- When the text-range guard holds, building the wrapper succeeds. -/
theorem mkTextRangeWrapper_of_true (o : HObj) (ctx : SCtx)
    (h : isTextRange o = .ok true) :
    ∃ s l, mkTextRangeWrapper o ctx
      = .ok (.obj [(textRangeTag,
          .obj [("start", .num s), ("length", .num l)])]) ctx := by
  unfold isTextRange at h
  cases hs : readProp o "start" with
  | error m => rw [hs] at h; cases h
  | ok sv =>
    rw [hs] at h
    cases sv with
    | num s2 =>
      cases hl : readProp o "length" with
      | error m => rw [hl] at h; cases h
      | ok lv =>
        rw [hl] at h
        cases lv with
        | num l2 => exact ⟨s2, l2, by simp [mkTextRangeWrapper, hs, hl]⟩
        | null => cases h
        | undef => cases h
        | str s3 => cases h
        | bool b3 => cases h
        | func => cases h
        | ref a3 => cases h
    | null => cases h
    | undef => cases h
    | str s3 => cases h
    | bool b3 => cases h
    | func => cases h
    | ref a3 => cases h

theorem serializeList_noThrow (rec : JVal → SCtx → SRes EVal) (n : Nat)
    (hrec : ∀ v c, wfJVal n v = true → NoThrow (rec v c)) :
    ∀ (vs : List JVal) (c : SCtx), vs.all (wfJVal n) = true →
      NoThrow (serializeList rec vs c) := by
  intro vs
  induction vs with
  | nil => intro c _ m c2 h; cases h
  | cons v vs ih =>
    intro c hwf m c2
    rw [List.all_cons, Bool.and_eq_true] at hwf
    cases hv : rec v c with
    | out => simp [serializeList, hv]
    | thrown m1 c1 => exact absurd hv (hrec v c hwf.1 m1 c1)
    | ok e c1 =>
      cases ht : serializeList rec vs c1 with
      | out => simp [serializeList, hv, ht]
      | thrown m1 c3 => exact absurd ht (ih c1 hwf.2 m1 c3)
      | ok es c3 => simp [serializeList, hv, ht]

theorem serializePairs_noThrow (rec : JVal → SCtx → SRes EVal) (n : Nat)
    (hrec : ∀ v c, wfJVal n v = true → NoThrow (rec v c)) :
    ∀ (es : List (JVal × JVal)) (c : SCtx),
      es.all (fun kv => wfJVal n kv.1 && wfJVal n kv.2) = true →
      NoThrow (serializePairs rec es c) := by
  intro es
  induction es with
  | nil => intro c _ m c2 h; cases h
  | cons kv es ih =>
    intro c hwf m c2
    obtain ⟨k, v⟩ := kv
    rw [List.all_cons, Bool.and_eq_true] at hwf
    rw [Bool.and_eq_true] at hwf
    cases hk : rec k c with
    | out => simp [serializePairs, hk]
    | thrown m1 c1 => exact absurd hk (hrec k c hwf.1.1 m1 c1)
    | ok ke c1 =>
      cases hv : rec v c1 with
      | out => simp [serializePairs, hk, hv]
      | thrown m1 c3 => exact absurd hv (hrec v c1 hwf.1.2 m1 c3)
      | ok ve c3 =>
        cases ht : serializePairs rec es c3 with
        | out => simp [serializePairs, hk, hv, ht]
        | thrown m1 c4 => exact absurd ht (ih c3 hwf.2 m1 c4)
        | ok ps c4 => simp [serializePairs, hk, hv, ht]

/-- The record branch never lets an exception escape, whatever the
recursive serializer does: both failure kinds are caught per key. -/
theorem serializeFields_noThrow (rec : JVal → SCtx → SRes EVal) :
    ∀ (fs : List (String × JProp)) (c : SCtx),
      NoThrow (serializeFields rec fs c) := by
  intro fs
  induction fs with
  | nil => intro c m c2 h; cases h
  | cons kp fs ih =>
    intro c m c2
    obtain ⟨k, p⟩ := kp
    cases p with
    | getterThrows => exact ih c m c2
    | val v =>
      cases hv : rec v c with
      | out => simp [serializeFields, hv]
      | thrown m1 c1 => simpa [serializeFields, hv] using ih c1 m c2
      | ok e c1 =>
        cases e with
        | undef => simpa [serializeFields, hv] using ih c1 m c2
        | null =>
          cases ht : serializeFields rec fs c1 with
          | out => simp [serializeFields, hv, ht]
          | thrown m1 c3 => exact absurd ht (ih c1 m1 c3)
          | ok es c3 => simp [serializeFields, hv, ht]
        | num x =>
          cases ht : serializeFields rec fs c1 with
          | out => simp [serializeFields, hv, ht]
          | thrown m1 c3 => exact absurd ht (ih c1 m1 c3)
          | ok es c3 => simp [serializeFields, hv, ht]
        | str x =>
          cases ht : serializeFields rec fs c1 with
          | out => simp [serializeFields, hv, ht]
          | thrown m1 c3 => exact absurd ht (ih c1 m1 c3)
          | ok es c3 => simp [serializeFields, hv, ht]
        | bool x =>
          cases ht : serializeFields rec fs c1 with
          | out => simp [serializeFields, hv, ht]
          | thrown m1 c3 => exact absurd ht (ih c1 m1 c3)
          | ok es c3 => simp [serializeFields, hv, ht]
        | arr x =>
          cases ht : serializeFields rec fs c1 with
          | out => simp [serializeFields, hv, ht]
          | thrown m1 c3 => exact absurd ht (ih c1 m1 c3)
          | ok es c3 => simp [serializeFields, hv, ht]
        | obj x =>
          cases ht : serializeFields rec fs c1 with
          | out => simp [serializeFields, hv, ht]
          | thrown m1 c3 => exact absurd ht (ih c1 m1 c3)
          | ok es c3 => simp [serializeFields, hv, ht]

theorem bool_not_true (b : Bool) : ((!b) = true) = (b = false) := by
  cases b <;> simp

theorem serializeDiag_noThrow (rec : JVal → SCtx → SRes EVal) (n : Nat)
    (fs : List (String × JProp)) (c : SCtx)
    (hwf : wfObj n (.hobj fs) = true)
    (hdiag : isDiagnostic (.hobj fs) = true)
    (hrec : ∀ v c2, wfJVal n v = true → NoThrow (rec v c2)) :
    NoThrow (serializeDiag rec (.hobj fs) c) := by
  intro m c2
  obtain ⟨cv, hc, _⟩ := readProp_of_wf n (.hobj fs) hwf "category"
  obtain ⟨mv, hm, _⟩ := readProp_of_wf n (.hobj fs) hwf "message"
  obtain ⟨rv, hr, hrwf⟩ := readProp_of_wf n (.hobj fs) hwf "range"
  have hraw : rawOk (getOwn fs "category") = true
      ∧ rawOk (getOwn fs "message") = true := by
    have h2 := hwf
    simp only [wfObj, Bool.and_eq_true, Bool.or_eq_true,
      bool_not_true] at h2
    rcases h2.2 with h | h
    · rw [hdiag] at h; cases h
    · exact h
  have hred : ∀ (k : String) (v2 : JVal), readProp (.hobj fs) k = .ok v2 →
      getOwn fs k = some (.val v2) ∨ v2 = .undef := by
    intro k v2 h
    rw [show readProp (.hobj fs) k = (match getOwn fs k with
        | some (.val v) => Except.ok v
        | some .getterThrows =>
            Except.error ("Error: getter for " ++ k ++ " threw")
        | none => Except.ok .undef) from rfl] at h
    cases hg : getOwn fs k with
    | none =>
      rw [hg] at h
      injection h with h
      exact Or.inr h.symm
    | some p =>
      cases p with
      | val w =>
        rw [hg] at h
        injection h with h
        exact Or.inl (by rw [h])
      | getterThrows => rw [hg] at h; cases h
  have hcs : ∃ ce, rawScalar cv = some ce := by
    rcases hred "category" cv hc with hg | hu
    · have h1 := hraw.1
      rw [hg] at h1
      cases cv with
      | ref a => simp [rawOk] at h1
      | null => exact ⟨_, rfl⟩
      | undef => exact ⟨_, rfl⟩
      | num x => exact ⟨_, rfl⟩
      | str x => exact ⟨_, rfl⟩
      | bool x => exact ⟨_, rfl⟩
      | func => exact ⟨_, rfl⟩
    · rw [hu]; exact ⟨_, rfl⟩
  have hms : ∃ me, rawScalar mv = some me := by
    rcases hred "message" mv hm with hg | hu
    · have h1 := hraw.2
      rw [hg] at h1
      cases mv with
      | ref a => simp [rawOk] at h1
      | null => exact ⟨_, rfl⟩
      | undef => exact ⟨_, rfl⟩
      | num x => exact ⟨_, rfl⟩
      | str x => exact ⟨_, rfl⟩
      | bool x => exact ⟨_, rfl⟩
      | func => exact ⟨_, rfl⟩
    · rw [hu]; exact ⟨_, rfl⟩
  obtain ⟨ce, hce⟩ := hcs
  obtain ⟨me, hme⟩ := hms
  unfold serializeDiag
  rw [hc, hm, hr]
  simp only [hce, hme]
  cases hrr : rec rv c with
  | out => simp [hrr]
  | thrown m1 c1 => exact absurd hrr (hrec rv c hrwf m1 c1)
  | ok re c1 => simp [hrr]

def isArrOrObj : HObj → Bool
  | .harr _ => true
  | .hobj _ => true
  | _ => false

theorem serializeDucked_noThrow (rec : JVal → SCtx → SRes EVal) (n : Nat)
    (o : HObj) (c : SCtx) (hwf : wfObj n o = true)
    (hao : isArrOrObj o = true)
    (hrec : ∀ v c2, wfJVal n v = true → NoThrow (rec v c2)) :
    NoThrow (serializeDucked rec o c) := by
  intro m c2
  unfold serializeDucked
  rcases duckKind_of_wf n o hwf with ⟨hk, ht⟩ | ⟨hk, hd⟩ | hk
  · rw [hk]
    obtain ⟨s, l, hw⟩ := mkTextRangeWrapper_of_true o c ht
    rw [hw]
    intro h
    cases h
  · rw [hk]
    cases o with
    | harr es => simp [isDiagnostic, hasProp, hProp] at hd
    | hobj fs => exact serializeDiag_noThrow rec n fs c hwf hd hrec m c2
    | date iso => simp [isArrOrObj] at hao
    | regexp s f => simp [isArrOrObj] at hao
    | hmap es => simp [isArrOrObj] at hao
    | hset es => simp [isArrOrObj] at hao
  · rw [hk]
    cases o with
    | harr es =>
      have hall : es.all (wfJVal n) = true := by simpa [wfObj] using hwf
      cases hl : serializeList rec es c with
      | out => simp [hl]
      | thrown m1 c3 =>
        exact absurd hl (serializeList_noThrow rec n hrec es c hall m1 c3)
      | ok xs c3 => simp [hl]
    | hobj fs =>
      cases hl : serializeFields rec fs c with
      | out => simp [hl]
      | thrown m1 c3 =>
        exact absurd hl (serializeFields_noThrow rec fs c m1 c3)
      | ok xs c3 => simp [hl]
    | date iso => simp [isArrOrObj] at hao
    | regexp s f => simp [isArrOrObj] at hao
    | hmap es => simp [isArrOrObj] at hao
    | hset es => simp [isArrOrObj] at hao

theorem serializeObject_noThrow (rec : JVal → SCtx → SRes EVal) (n : Nat)
    (o : HObj) (c : SCtx) (hwf : wfObj n o = true)
    (hrec : ∀ v c2, wfJVal n v = true → NoThrow (rec v c2)) :
    NoThrow (serializeObject rec o c) := by
  intro m c2
  cases o with
  | date iso => intro h; cases h
  | regexp s f => intro h; cases h
  | hmap es =>
    have hall : es.all (fun kv => wfJVal n kv.1 && wfJVal n kv.2) = true := by
      simpa [wfObj] using hwf
    cases hp : serializePairs rec es c with
    | out => simp [serializeObject, hp]
    | thrown m1 c3 =>
      exact absurd hp (serializePairs_noThrow rec n hrec es c hall m1 c3)
    | ok ps c3 => simp [serializeObject, hp]
  | hset es =>
    have hall : es.all (wfJVal n) = true := by simpa [wfObj] using hwf
    cases hl : serializeList rec es c with
    | out => simp [serializeObject, hl]
    | thrown m1 c3 =>
      exact absurd hl (serializeList_noThrow rec n hrec es c hall m1 c3)
    | ok xs c3 => simp [serializeObject, hl]
  | harr es => exact serializeDucked_noThrow rec n (.harr es) c hwf rfl hrec m c2
  | hobj fs => exact serializeDucked_noThrow rec n (.hobj fs) c hwf rfl hrec m c2

/-- Under well-formed input the whole encoding walk never lets an
exception escape. -/
theorem serializeValue_noThrow :
    ∀ (fuel : Nat) (store : Store) (v : JVal) (ctx : SCtx),
      wfStore store = true → wfJVal store.length v = true →
      NoThrow (serializeValue fuel store v ctx) := by
  intro fuel
  induction fuel with
  | zero => intro store v ctx _ _ m c2 h; cases h
  | succ f ih =>
    intro store v ctx hws hwv m c2
    cases v with
    | null => intro h; cases h
    | undef => intro h; cases h
    | num x => intro h; cases h
    | str x => intro h; cases h
    | bool x => intro h; cases h
    | func => intro h; cases h
    | ref a =>
      cases hs : lookupSeen ctx.seen a with
      | some i =>
        rw [serializeValue_ref_seen f store a ctx i hs]
        intro h
        cases h
      | none =>
        have hlt : a < store.length := by simpa [wfJVal] using hwv
        have hgs : store[a]? = some store[a] := List.getElem?_eq_getElem hlt
        have hmem : store[a] ∈ store := List.getElem_mem hlt
        have hwo : wfObj store.length store[a] = true :=
          List.all_eq_true.mp hws _ hmem
        rw [serializeValue_ref_unseen f store a ctx _ hs hgs]
        exact serializeObject_noThrow (serializeValue f store) store.length
          store[a] _ hwo (fun v2 c3 hv2 => ih store v2 c3 hws hv2) m c2

/-- C6: the record branch iterates only the value's own enumerable keys
(every key of the output record comes from the input's key list, in
particular nothing inherited appears); a key whose getter throws is
silently skipped; a key whose child serialization throws is silently
skipped (the child's context mutations survive); a key whose encoded
value is `undefined` is omitted; the record branch never lets an
exception escape at all; and on well-formed input the entire encode walk
never raises. -/
theorem record_branch_error_policy :
    (∀ (rec : JVal → SCtx → SRes EVal) (k : String)
        (fs : List (String × JProp)) (ctx : SCtx),
      serializeFields rec ((k, .getterThrows) :: fs) ctx
        = serializeFields rec fs ctx)
    ∧ (∀ (rec : JVal → SCtx → SRes EVal) (k : String) (v : JVal)
        (fs : List (String × JProp)) (ctx ctx1 : SCtx) (m : String),
        rec v ctx = .thrown m ctx1 →
        serializeFields rec ((k, .val v) :: fs) ctx
          = serializeFields rec fs ctx1)
    ∧ (∀ (rec : JVal → SCtx → SRes EVal) (k : String) (v : JVal)
        (fs : List (String × JProp)) (ctx ctx1 : SCtx),
        rec v ctx = .ok .undef ctx1 →
        serializeFields rec ((k, .val v) :: fs) ctx
          = serializeFields rec fs ctx1)
    ∧ (∀ (rec : JVal → SCtx → SRes EVal) (fs : List (String × JProp))
        (ctx ctx2 : SCtx) (out : List (String × EVal)),
        serializeFields rec fs ctx = .ok out ctx2 →
        ∀ ke, ke ∈ out → ke.1 ∈ fs.map Prod.fst)
    ∧ (∀ (rec : JVal → SCtx → SRes EVal) (fs : List (String × JProp))
        (ctx : SCtx), NoThrow (serializeFields rec fs ctx))
    ∧ (∀ (fuel : Nat) (store : Store) (v : JVal) (ctx : SCtx),
        wfStore store = true → wfJVal store.length v = true →
        NoThrow (serializeValue fuel store v ctx)) := by
  refine ⟨fun rec k fs ctx => rfl, ?_, ?_, ?_,
    serializeFields_noThrow, serializeValue_noThrow⟩
  · intro rec k v fs ctx ctx1 m h
    simp [serializeFields, h]
  · intro rec k v fs ctx ctx1 h
    simp [serializeFields, h]
  · intro rec fs
    induction fs with
    | nil =>
      intro ctx ctx2 out h ke hke
      cases h
      cases hke
    | cons kp fs ih =>
      intro ctx ctx2 out h ke hke
      obtain ⟨k, p⟩ := kp
      cases p with
      | getterThrows =>
        rw [show serializeFields rec ((k, .getterThrows) :: fs) ctx
            = serializeFields rec fs ctx from rfl] at h
        exact List.mem_cons_of_mem _ (ih ctx ctx2 out h ke hke)
      | val v =>
        cases hv : rec v ctx with
        | out => rw [show serializeFields rec ((k, .val v) :: fs) ctx
              = SRes.out from by simp [serializeFields, hv]] at h; cases h
        | thrown m c1 =>
          rw [show serializeFields rec ((k, .val v) :: fs) ctx
              = serializeFields rec fs c1 from by simp [serializeFields, hv]] at h
          exact List.mem_cons_of_mem _ (ih c1 ctx2 out h ke hke)
        | ok e c1 =>
          cases e with
          | undef =>
            rw [show serializeFields rec ((k, .val v) :: fs) ctx
                = serializeFields rec fs c1 from by
              simp [serializeFields, hv]] at h
            exact List.mem_cons_of_mem _ (ih c1 ctx2 out h ke hke)
          | null =>
            revert h
            rw [show serializeFields rec ((k, .val v) :: fs) ctx
                = (match serializeFields rec fs c1 with
                   | .out => SRes.out
                   | .thrown m c => .thrown m c
                   | .ok es c3 => .ok ((k, .null) :: es) c3) from by
              simp [serializeFields, hv]]
            cases ht : serializeFields rec fs c1 with
            | out => intro h; cases h
            | thrown m c3 => intro h; cases h
            | ok es c3 =>
              intro h
              injection h with h1 h2
              rw [← h1] at hke
              rcases List.mem_cons.mp hke with he2 | he2
              · rw [he2]; exact List.mem_cons_self _ _
              · exact List.mem_cons_of_mem _ (ih c1 c3 es ht ke he2)
          | num x =>
            revert h
            rw [show serializeFields rec ((k, .val v) :: fs) ctx
                = (match serializeFields rec fs c1 with
                   | .out => SRes.out
                   | .thrown m c => .thrown m c
                   | .ok es c3 => .ok ((k, .num x) :: es) c3) from by
              simp [serializeFields, hv]]
            cases ht : serializeFields rec fs c1 with
            | out => intro h; cases h
            | thrown m c3 => intro h; cases h
            | ok es c3 =>
              intro h
              injection h with h1 h2
              rw [← h1] at hke
              rcases List.mem_cons.mp hke with he2 | he2
              · rw [he2]; exact List.mem_cons_self _ _
              · exact List.mem_cons_of_mem _ (ih c1 c3 es ht ke he2)
          | str x =>
            revert h
            rw [show serializeFields rec ((k, .val v) :: fs) ctx
                = (match serializeFields rec fs c1 with
                   | .out => SRes.out
                   | .thrown m c => .thrown m c
                   | .ok es c3 => .ok ((k, .str x) :: es) c3) from by
              simp [serializeFields, hv]]
            cases ht : serializeFields rec fs c1 with
            | out => intro h; cases h
            | thrown m c3 => intro h; cases h
            | ok es c3 =>
              intro h
              injection h with h1 h2
              rw [← h1] at hke
              rcases List.mem_cons.mp hke with he2 | he2
              · rw [he2]; exact List.mem_cons_self _ _
              · exact List.mem_cons_of_mem _ (ih c1 c3 es ht ke he2)
          | bool x =>
            revert h
            rw [show serializeFields rec ((k, .val v) :: fs) ctx
                = (match serializeFields rec fs c1 with
                   | .out => SRes.out
                   | .thrown m c => .thrown m c
                   | .ok es c3 => .ok ((k, .bool x) :: es) c3) from by
              simp [serializeFields, hv]]
            cases ht : serializeFields rec fs c1 with
            | out => intro h; cases h
            | thrown m c3 => intro h; cases h
            | ok es c3 =>
              intro h
              injection h with h1 h2
              rw [← h1] at hke
              rcases List.mem_cons.mp hke with he2 | he2
              · rw [he2]; exact List.mem_cons_self _ _
              · exact List.mem_cons_of_mem _ (ih c1 c3 es ht ke he2)
          | arr x =>
            revert h
            rw [show serializeFields rec ((k, .val v) :: fs) ctx
                = (match serializeFields rec fs c1 with
                   | .out => SRes.out
                   | .thrown m c => .thrown m c
                   | .ok es c3 => .ok ((k, .arr x) :: es) c3) from by
              simp [serializeFields, hv]]
            cases ht : serializeFields rec fs c1 with
            | out => intro h; cases h
            | thrown m c3 => intro h; cases h
            | ok es c3 =>
              intro h
              injection h with h1 h2
              rw [← h1] at hke
              rcases List.mem_cons.mp hke with he2 | he2
              · rw [he2]; exact List.mem_cons_self _ _
              · exact List.mem_cons_of_mem _ (ih c1 c3 es ht ke he2)
          | obj x =>
            revert h
            rw [show serializeFields rec ((k, .val v) :: fs) ctx
                = (match serializeFields rec fs c1 with
                   | .out => SRes.out
                   | .thrown m c => .thrown m c
                   | .ok es c3 => .ok ((k, .obj x) :: es) c3) from by
              simp [serializeFields, hv]]
            cases ht : serializeFields rec fs c1 with
            | out => intro h; cases h
            | thrown m c3 => intro h; cases h
            | ok es c3 =>
              intro h
              injection h with h1 h2
              rw [← h1] at hke
              rcases List.mem_cons.mp hke with he2 | he2
              · rw [he2]; exact List.mem_cons_self _ _
              · exact List.mem_cons_of_mem _ (ih c1 c3 es ht ke he2)

theorem record_branch_error_policy_witness :
    (serializeFields (fun _ c => .ok .null c) [("a", .getterThrows)] initSCtx
      = serializeFields (fun _ c => .ok .null c) [] initSCtx)
    ∧ (serializeFields (fun _ c => .thrown "boom" c)
        [("b", .val .null)] initSCtx
      = serializeFields (fun _ c => .thrown "boom" c) [] initSCtx)
    ∧ (serializeFields (fun _ c => .ok .undef c) [("d", .val .null)] initSCtx
      = serializeFields (fun _ c => .ok .undef c) [] initSCtx)
    ∧ ("a" ∈ [("a", JProp.val JVal.null)].map Prod.fst)
    ∧ (serializeFields (fun _ c => SRes.ok EVal.null c)
        [("a", .val .null)] initSCtx ≠ .thrown "x" initSCtx)
    ∧ (serializeValue 4 diagStore (.ref 0) initSCtx ≠ .thrown "x" initSCtx) :=
  ⟨record_branch_error_policy.1 (fun _ c => .ok .null c) "a" [] initSCtx,
   record_branch_error_policy.2.1 (fun _ c => .thrown "boom" c) "b" .null []
     initSCtx initSCtx "boom" rfl,
   record_branch_error_policy.2.2.1 (fun _ c => .ok .undef c) "d" .null []
     initSCtx initSCtx rfl,
   record_branch_error_policy.2.2.2.1 (fun _ c => SRes.ok EVal.null c)
     [("a", .val .null)] initSCtx initSCtx [("a", .null)] rfl
     ("a", .null) (by simp),
   record_branch_error_policy.2.2.2.2.1 (fun _ c => SRes.ok EVal.null c)
     [("a", .val .null)] initSCtx "x" initSCtx,
   record_branch_error_policy.2.2.2.2.2 4 diagStore (.ref 0) initSCtx
     (by decide) (by decide) "x" initSCtx⟩

/-!
## C1: round-trip on acyclic, unshared values of the supported kinds

`TVal` describes input object graphs that are trees: every composite
node is a distinct, unshared object.  `build` lays such a tree out in a
store (children first, each node at a fresh address), which is exactly
the class of heaps a JS program builds with fresh literals.  `GoodT`
carves out the values the codec round-trips: no callables (they encode
to absence), no parse-node or text-range or diagnostic *shaped* plain
records (their extra fields are summarized away), no reserved tag names
as record keys (they would be misread on decode), and diagnostics with
scalar category/message in the canonical key order the decoder
reproduces.
-/

inductive TVal where
  | null
  | num (n : Int)
  | str (s : String)
  | bool (b : Bool)
  | date (iso : String)
  | regexp (source flags : String)
  | range (s l : Int)
  | diag (category : Int) (message : String) (range : TVal)
  | tmap (entries : List (TVal × TVal))
  | tset (elems : List TVal)
  | arr (elems : List TVal)
  | obj (fields : List (String × TVal))

def findT : List (String × TVal) → String → Option TVal
  | [], _ => none
  | (k, v) :: rest, key => if k = key then some v else findT rest key

def isNumT : Option TVal → Bool
  | some (.num _) => true
  | _ => false

def nodupKeys : List String → Bool
  | [] => true
  | k :: ks => !(ks.contains k) && nodupKeys ks

/-- Conditions on a plain record so that encode treats it as a record
and decode reads it back as one. -/
def recordShapeOK (fs : List (String × TVal)) : Bool :=
  nodupKeys (fs.map Prod.fst)
  && (fs.map Prod.fst).all (fun k => !(reservedTags.contains k))
  && !(isNumT (findT fs "start") && isNumT (findT fs "length"))
  && !((findT fs "category").isSome && (findT fs "message").isSome
       && (findT fs "range").isSome)

mutual

def GoodT : TVal → Bool
  | .null => true
  | .num _ => true
  | .str _ => true
  | .bool _ => true
  | .date _ => true
  | .regexp _ _ => true
  | .range _ _ => true
  | .diag _ _ r => GoodT r
  | .tmap es => GoodPairs es
  | .tset es => GoodList es
  | .arr es => GoodList es
  | .obj fs => recordShapeOK fs && GoodFields fs

def GoodPairs : List (TVal × TVal) → Bool
  | [] => true
  | (k, v) :: es => GoodT k && GoodT v && GoodPairs es

def GoodList : List TVal → Bool
  | [] => true
  | t :: ts => GoodT t && GoodList ts

def GoodFields : List (String × TVal) → Bool
  | [] => true
  | (_, v) :: fs => GoodT v && GoodFields fs

end

mutual

/-- Number of recursive serializer/decoder calls a tree costs; used as
the fuel budget. -/
def tsize : TVal → Nat
  | .null => 1
  | .num _ => 1
  | .str _ => 1
  | .bool _ => 1
  | .date _ => 1
  | .regexp _ _ => 1
  | .range _ _ => 1
  | .diag _ _ r => 1 + tsize r
  | .tmap es => 1 + tsizePairs es
  | .tset es => 1 + tsizeList es
  | .arr es => 1 + tsizeList es
  | .obj fs => 1 + tsizeFields fs

def tsizePairs : List (TVal × TVal) → Nat
  | [] => 0
  | (k, v) :: es => tsize k + tsize v + tsizePairs es

def tsizeList : List TVal → Nat
  | [] => 0
  | t :: ts => tsize t + tsizeList ts

def tsizeFields : List (String × TVal) → Nat
  | [] => 0
  | (_, v) :: fs => tsize v + tsizeFields fs

end

mutual

/-- The encoded document tree `_serializeValue` produces for a built
`TVal` (no circular markers arise: every node is visited once). -/
def encT : TVal → EVal
  | .null => .null
  | .num n => .num n
  | .str s => .str s
  | .bool b => .bool b
  | .date iso => .obj [(dateTag, .str iso)]
  | .regexp s f =>
      .obj [(regExpTag, .obj [("source", .str s), ("flags", .str f)])]
  | .range s l =>
      .obj [(textRangeTag, .obj [("start", .num s), ("length", .num l)])]
  | .diag c m r =>
      .obj [(diagnosticTag,
        .obj [("category", .num c), ("message", .str m), ("range", encT r)])]
  | .tmap es =>
      .obj [(mapTag, .arr ((encTPairs es).map (fun p => .arr [p.1, p.2])))]
  | .tset es => .obj [(setTag, .arr (encTList es))]
  | .arr es => .arr (encTList es)
  | .obj fs => .obj (encTFields fs)

def encTPairs : List (TVal × TVal) → List (EVal × EVal)
  | [] => []
  | (k, v) :: es => (encT k, encT v) :: encTPairs es

def encTList : List TVal → List EVal
  | [] => []
  | t :: ts => encT t :: encTList ts

def encTFields : List (String × TVal) → List (String × EVal)
  | [] => []
  | (k, v) :: fs => (k, encT v) :: encTFields fs

end

mutual

/-- The decoded value `_deserializeValue` reconstructs: structurally the
original, with text ranges and diagnostics rebuilt as plain objects in
the decoder's canonical key order. -/
def toDVal : TVal → DVal
  | .null => .null
  | .num n => .num n
  | .str s => .str s
  | .bool b => .bool b
  | .date iso => .date iso
  | .regexp s f => .regexp s f
  | .range s l => .obj [("start", .num s), ("length", .num l)]
  | .diag c m r =>
      .obj [("category", .num c), ("message", .str m), ("range", toDVal r)]
  | .tmap es => .dmap (toDValPairs es)
  | .tset es => .dset (toDValList es)
  | .arr es => .arr (toDValList es)
  | .obj fs => .obj (toDValFields fs)

def toDValPairs : List (TVal × TVal) → List (DVal × DVal)
  | [] => []
  | (k, v) :: es => (toDVal k, toDVal v) :: toDValPairs es

def toDValList : List TVal → List DVal
  | [] => []
  | t :: ts => toDVal t :: toDValList ts

def toDValFields : List (String × TVal) → List (String × DVal)
  | [] => []
  | (k, v) :: fs => (k, toDVal v) :: toDValFields fs

end

mutual

/-- Lay a tree out in a store: children first, then the node itself at
the next fresh address.  Every composite gets its own address, so the
resulting heap value is unshared and acyclic. -/
def build : TVal → Store → JVal × Store
  | .null, s => (.null, s)
  | .num n, s => (.num n, s)
  | .str x, s => (.str x, s)
  | .bool b, s => (.bool b, s)
  | .date iso, s => (.ref s.length, s ++ [.date iso])
  | .regexp so f, s => (.ref s.length, s ++ [.regexp so f])
  | .range st l, s =>
      (.ref s.length,
       s ++ [.hobj [("start", .val (.num st)), ("length", .val (.num l))]])
  | .diag c m r, s =>
      let p := build r s
      (.ref p.2.length,
       p.2 ++ [.hobj [("category", .val (.num c)),
                      ("message", .val (.str m)),
                      ("range", .val p.1)]])
  | .tmap es, s =>
      let p := buildPairs es s
      (.ref p.2.length, p.2 ++ [.hmap p.1])
  | .tset es, s =>
      let p := buildList es s
      (.ref p.2.length, p.2 ++ [.hset p.1])
  | .arr es, s =>
      let p := buildList es s
      (.ref p.2.length, p.2 ++ [.harr p.1])
  | .obj fs, s =>
      let p := buildFields fs s
      (.ref p.2.length, p.2 ++ [.hobj p.1])

def buildPairs : List (TVal × TVal) → Store → List (JVal × JVal) × Store
  | [], s => ([], s)
  | (k, v) :: es, s =>
      let pk := build k s
      let pv := build v pk.2
      let pr := buildPairs es pv.2
      ((pk.1, pv.1) :: pr.1, pr.2)

def buildList : List TVal → Store → List JVal × Store
  | [], s => ([], s)
  | t :: ts, s =>
      let pt := build t s
      let pr := buildList ts pt.2
      (pt.1 :: pr.1, pr.2)

def buildFields : List (String × TVal) → Store → List (String × JProp) × Store
  | [], s => ([], s)
  | (k, v) :: fs, s =>
      let pv := build v s
      let pr := buildFields fs pv.2
      ((k, .val pv.1) :: pr.1, pr.2)

end

theorem tsize_pos : ∀ t : TVal, 1 ≤ tsize t := by
  intro t
  cases t <;> simp [tsize]

theorem jnormList_cons_of_ne (e : EVal) (es : List EVal)
    (h1 : jnorm e = e) (h2 : e ≠ .undef) :
    jnormList (e :: es) = e :: jnormList es := by
  simp only [jnormList]
  rw [h1]
  cases e with
  | undef => exact absurd rfl h2
  | null => rfl
  | num x => rfl
  | str x => rfl
  | bool x => rfl
  | arr x => rfl
  | obj x => rfl

theorem jnormFields_cons_of_ne (k : String) (v : EVal)
    (fs : List (String × EVal)) (h1 : jnorm v = v) (h2 : v ≠ .undef) :
    jnormFields ((k, v) :: fs) = (k, v) :: jnormFields fs := by
  simp only [jnormFields]
  rw [h1]
  cases v with
  | undef => exact absurd rfl h2
  | null => rfl
  | num x => rfl
  | str x => rfl
  | bool x => rfl
  | arr x => rfl
  | obj x => rfl

/-- `JSON.stringify`/`JSON.parse` is the identity on every encoded tree:
no `undefined` can appear in the encoding of a `TVal` (the type has no
callables). -/
theorem jnorm_encT : ∀ n : Nat,
    (∀ t, tsize t ≤ n → jnorm (encT t) = encT t ∧ encT t ≠ EVal.undef)
    ∧ (∀ es, tsizePairs es ≤ n →
        jnormList ((encTPairs es).map (fun p => EVal.arr [p.1, p.2]))
          = (encTPairs es).map (fun p => EVal.arr [p.1, p.2]))
    ∧ (∀ ts, tsizeList ts ≤ n → jnormList (encTList ts) = encTList ts)
    ∧ (∀ fs, tsizeFields fs ≤ n →
        jnormFields (encTFields fs) = encTFields fs) := by
  intro n
  induction n with
  | zero =>
    refine ⟨?_, ?_, ?_, ?_⟩
    · intro t h
      exact absurd h (by have := tsize_pos t; omega)
    · intro es h
      cases es with
      | nil => simp [encTPairs, jnormList]
      | cons kv es =>
        exfalso
        have := tsize_pos kv.1
        rw [show tsizePairs (kv :: es)
            = tsize kv.1 + tsize kv.2 + tsizePairs es from by
          obtain ⟨k, v⟩ := kv; rfl] at h
        omega
    · intro ts h
      cases ts with
      | nil => simp [encTList, jnormList]
      | cons t ts =>
        exfalso
        have := tsize_pos t
        simp only [tsizeList] at h
        omega
    · intro fs h
      cases fs with
      | nil => simp [encTFields, jnormFields]
      | cons kv fs =>
        exfalso
        have := tsize_pos kv.2
        rw [show tsizeFields (kv :: fs) = tsize kv.2 + tsizeFields fs from by
          obtain ⟨k, v⟩ := kv; rfl] at h
        omega
  | succ n ih =>
    have hv : ∀ t, tsize t ≤ n + 1 →
        jnorm (encT t) = encT t ∧ encT t ≠ EVal.undef := by
      intro t
      cases t with
      | null => exact fun _ => ⟨by simp [encT, jnorm], by simp [encT]⟩
      | num x => exact fun _ => ⟨by simp [encT, jnorm], by simp [encT]⟩
      | str x => exact fun _ => ⟨by simp [encT, jnorm], by simp [encT]⟩
      | bool x => exact fun _ => ⟨by simp [encT, jnorm], by simp [encT]⟩
      | date iso =>
        exact fun _ =>
          ⟨by simp [encT, jnorm, jnormFields, jnormList], by simp [encT]⟩
      | regexp s f =>
        exact fun _ =>
          ⟨by simp [encT, jnorm, jnormFields, jnormList], by simp [encT]⟩
      | range s l =>
        exact fun _ =>
          ⟨by simp [encT, jnorm, jnormFields, jnormList], by simp [encT]⟩
      | diag c m r =>
        intro h
        have h3 : tsize r ≤ n := by simp only [tsize] at h; omega
        obtain ⟨h1, h2⟩ := ih.1 r h3
        refine ⟨?_, by simp [encT]⟩
        cases hre : encT r with
        | undef => exact absurd hre h2
        | null =>
          rw [hre] at h1
          simp only [encT]
          rw [hre]
          simp [jnorm, jnormFields, h1]
        | num x =>
          rw [hre] at h1
          simp only [encT]
          rw [hre]
          simp [jnorm, jnormFields, h1]
        | str x =>
          rw [hre] at h1
          simp only [encT]
          rw [hre]
          simp [jnorm, jnormFields, h1]
        | bool x =>
          rw [hre] at h1
          simp only [encT]
          rw [hre]
          simp [jnorm, jnormFields, h1]
        | arr x =>
          rw [hre] at h1
          have h4 : jnormList x = x := by
            have h5 := h1
            simp only [jnorm] at h5
            simpa using h5
          simp only [encT]
          rw [hre]
          simp [jnorm, jnormFields, h1, h4]
        | obj x =>
          rw [hre] at h1
          have h4 : jnormFields x = x := by
            have h5 := h1
            simp only [jnorm] at h5
            simpa using h5
          simp only [encT]
          rw [hre]
          simp [jnorm, jnormFields, h1, h4]
      | tmap es =>
        intro h
        have h3 : tsizePairs es ≤ n := by simp only [tsize] at h; omega
        have hp := ih.2.1 es h3
        exact ⟨by simp [encT, jnorm, jnormFields, jnormList, hp],
          by simp [encT]⟩
      | tset es =>
        intro h
        have h3 : tsizeList es ≤ n := by simp only [tsize] at h; omega
        have hp := ih.2.2.1 es h3
        exact ⟨by simp [encT, jnorm, jnormFields, jnormList, hp],
          by simp [encT]⟩
      | arr es =>
        intro h
        have h3 : tsizeList es ≤ n := by simp only [tsize] at h; omega
        have hp := ih.2.2.1 es h3
        exact ⟨by simp [encT, jnorm, jnormList, hp], by simp [encT]⟩
      | obj fs =>
        intro h
        have h3 : tsizeFields fs ≤ n := by simp only [tsize] at h; omega
        have hp := ih.2.2.2 fs h3
        exact ⟨by simp [encT, jnorm, hp], by simp [encT]⟩
    refine ⟨hv, ?_, ?_, ?_⟩
    · intro es
      induction es with
      | nil => intro h; simp [encTPairs, jnormList]
      | cons kv es ihes =>
        intro h
        obtain ⟨k, v⟩ := kv
        rw [show tsizePairs ((k, v) :: es)
            = tsize k + tsize v + tsizePairs es from rfl] at h
        obtain ⟨h1k, h2k⟩ := hv k (by omega)
        obtain ⟨h1v, h2v⟩ := hv v (by omega)
        have hinner : jnormList [encT k, encT v] = [encT k, encT v] := by
          rw [jnormList_cons_of_ne _ _ h1k h2k,
            jnormList_cons_of_ne _ _ h1v h2v]
          simp [jnormList]
        have htail := ihes (by omega)
        have h1e : jnorm (.arr [encT k, encT v]) = .arr [encT k, encT v] := by
          simp only [jnorm]
          rw [hinner]
        simp only [encTPairs, List.map_cons]
        rw [jnormList_cons_of_ne _ _ h1e (by intro hh; cases hh), htail]
    · intro ts
      induction ts with
      | nil => intro h; simp [encTList, jnormList]
      | cons t ts ihts =>
        intro h
        rw [show tsizeList (t :: ts) = tsize t + tsizeList ts from rfl] at h
        obtain ⟨h1, h2⟩ := hv t (by have := tsize_pos t; omega)
        have htail := ihts (by omega)
        simp only [encTList]
        rw [jnormList_cons_of_ne _ _ h1 h2, htail]
    · intro fs
      induction fs with
      | nil => intro h; simp [encTFields, jnormFields]
      | cons kv fs ihfs =>
        intro h
        obtain ⟨k, v⟩ := kv
        rw [show tsizeFields ((k, v) :: fs)
            = tsize v + tsizeFields fs from rfl] at h
        obtain ⟨h1, h2⟩ := hv v (by have := tsize_pos v; omega)
        have htail := ihfs (by omega)
        simp only [encTFields]
        rw [jnormFields_cons_of_ne _ _ _ h1 h2, htail]

/-- Layout facts about `build`: the store only grows (by a suffix), and
a composite root's address is fresh — at or above the old length,
strictly below the new one. -/
theorem buildFacts : ∀ n : Nat,
    (∀ (t : TVal) (s0 : Store), tsize t ≤ n →
       (∃ d, (build t s0).2 = s0 ++ d)
       ∧ (∀ a, (build t s0).1 = .ref a →
           s0.length ≤ a ∧ a < (build t s0).2.length))
    ∧ (∀ (es : List (TVal × TVal)) (s0 : Store), tsizePairs es ≤ n →
        ∃ d, (buildPairs es s0).2 = s0 ++ d)
    ∧ (∀ (ts : List TVal) (s0 : Store), tsizeList ts ≤ n →
        ∃ d, (buildList ts s0).2 = s0 ++ d)
    ∧ (∀ (fs : List (String × TVal)) (s0 : Store), tsizeFields fs ≤ n →
        ∃ d, (buildFields fs s0).2 = s0 ++ d) := by
  intro n
  induction n with
  | zero =>
    refine ⟨?_, ?_, ?_, ?_⟩
    · intro t s0 h
      exact absurd h (by have := tsize_pos t; omega)
    · intro es s0 h
      cases es with
      | nil => exact ⟨[], by simp [buildPairs]⟩
      | cons kv es =>
        exfalso
        have := tsize_pos kv.1
        rw [show tsizePairs (kv :: es)
            = tsize kv.1 + tsize kv.2 + tsizePairs es from by
          obtain ⟨k, v⟩ := kv; rfl] at h
        omega
    · intro ts s0 h
      cases ts with
      | nil => exact ⟨[], by simp [buildList]⟩
      | cons t ts =>
        exfalso
        have := tsize_pos t
        simp only [tsizeList] at h
        omega
    · intro fs s0 h
      cases fs with
      | nil => exact ⟨[], by simp [buildFields]⟩
      | cons kv fs =>
        exfalso
        have := tsize_pos kv.2
        rw [show tsizeFields (kv :: fs) = tsize kv.2 + tsizeFields fs from by
          obtain ⟨k, v⟩ := kv; rfl] at h
        omega
  | succ n ih =>
    have hv : ∀ (t : TVal) (s0 : Store), tsize t ≤ n + 1 →
        (∃ d, (build t s0).2 = s0 ++ d)
        ∧ (∀ a, (build t s0).1 = .ref a →
            s0.length ≤ a ∧ a < (build t s0).2.length) := by
      intro t s0 h
      cases t with
      | null => exact ⟨⟨[], by simp [build]⟩, fun a ha => by simp [build] at ha⟩
      | num x => exact ⟨⟨[], by simp [build]⟩, fun a ha => by simp [build] at ha⟩
      | str x => exact ⟨⟨[], by simp [build]⟩, fun a ha => by simp [build] at ha⟩
      | bool x => exact ⟨⟨[], by simp [build]⟩, fun a ha => by simp [build] at ha⟩
      | date iso =>
        refine ⟨⟨[.date iso], by simp [build]⟩, fun a ha => ?_⟩
        simp only [build] at ha
        injection ha with ha
        rw [← ha]
        simp [build]
      | regexp s f =>
        refine ⟨⟨[.regexp s f], by simp [build]⟩, fun a ha => ?_⟩
        simp only [build] at ha
        injection ha with ha
        rw [← ha]
        simp [build]
      | range st l =>
        refine ⟨⟨[.hobj [("start", .val (.num st)), ("length", .val (.num l))]],
          by simp [build]⟩, fun a ha => ?_⟩
        simp only [build] at ha
        injection ha with ha
        rw [← ha]
        simp [build]
      | diag c m r =>
        have h3 : tsize r ≤ n := by simp only [tsize] at h; omega
        obtain ⟨⟨d, hd⟩, _⟩ := ih.1 r s0 h3
        refine ⟨⟨d ++ [.hobj [("category", .val (.num c)),
            ("message", .val (.str m)), ("range", .val (build r s0).1)]],
          by simp [build, hd]⟩, fun a ha => ?_⟩
        simp only [build] at ha
        injection ha with ha
        rw [← ha]
        simp [build, hd]
      | tmap es =>
        have h3 : tsizePairs es ≤ n := by simp only [tsize] at h; omega
        obtain ⟨d, hd⟩ := ih.2.1 es s0 h3
        refine ⟨⟨d ++ [.hmap (buildPairs es s0).1], by simp [build, hd]⟩,
          fun a ha => ?_⟩
        simp only [build] at ha
        injection ha with ha
        rw [← ha]
        simp [build, hd]
      | tset es =>
        have h3 : tsizeList es ≤ n := by simp only [tsize] at h; omega
        obtain ⟨d, hd⟩ := ih.2.2.1 es s0 h3
        refine ⟨⟨d ++ [.hset (buildList es s0).1], by simp [build, hd]⟩,
          fun a ha => ?_⟩
        simp only [build] at ha
        injection ha with ha
        rw [← ha]
        simp [build, hd]
      | arr es =>
        have h3 : tsizeList es ≤ n := by simp only [tsize] at h; omega
        obtain ⟨d, hd⟩ := ih.2.2.1 es s0 h3
        refine ⟨⟨d ++ [.harr (buildList es s0).1], by simp [build, hd]⟩,
          fun a ha => ?_⟩
        simp only [build] at ha
        injection ha with ha
        rw [← ha]
        simp [build, hd]
      | obj fs =>
        have h3 : tsizeFields fs ≤ n := by simp only [tsize] at h; omega
        obtain ⟨d, hd⟩ := ih.2.2.2 fs s0 h3
        refine ⟨⟨d ++ [.hobj (buildFields fs s0).1], by simp [build, hd]⟩,
          fun a ha => ?_⟩
        simp only [build] at ha
        injection ha with ha
        rw [← ha]
        simp [build, hd]
    refine ⟨hv, ?_, ?_, ?_⟩
    · intro es
      induction es with
      | nil => intro s0 h; exact ⟨[], by simp [buildPairs]⟩
      | cons kv es ihes =>
        intro s0 h
        obtain ⟨k, v⟩ := kv
        rw [show tsizePairs ((k, v) :: es)
            = tsize k + tsize v + tsizePairs es from rfl] at h
        obtain ⟨⟨d1, hd1⟩, _⟩ := hv k s0 (by omega)
        obtain ⟨⟨d2, hd2⟩, _⟩ := hv v (build k s0).2 (by omega)
        obtain ⟨d3, hd3⟩ := ihes (build v (build k s0).2).2 (by omega)
        refine ⟨d1 ++ d2 ++ d3, ?_⟩
        simp only [buildPairs]
        rw [hd3, hd2, hd1]
        simp
    · intro ts
      induction ts with
      | nil => intro s0 h; exact ⟨[], by simp [buildList]⟩
      | cons t ts ihts =>
        intro s0 h
        rw [show tsizeList (t :: ts) = tsize t + tsizeList ts from rfl] at h
        obtain ⟨⟨d1, hd1⟩, _⟩ := hv t s0 (by omega)
        obtain ⟨d2, hd2⟩ := ihts (build t s0).2 (by omega)
        refine ⟨d1 ++ d2, ?_⟩
        simp only [buildList]
        rw [hd2, hd1]
        simp
    · intro fs
      induction fs with
      | nil => intro s0 h; exact ⟨[], by simp [buildFields]⟩
      | cons kv fs ihfs =>
        intro s0 h
        obtain ⟨k, v⟩ := kv
        rw [show tsizeFields ((k, v) :: fs)
            = tsize v + tsizeFields fs from rfl] at h
        obtain ⟨⟨d1, hd1⟩, _⟩ := hv v s0 (by omega)
        obtain ⟨d2, hd2⟩ := ihfs (build v s0).2 (by omega)
        refine ⟨d1 ++ d2, ?_⟩
        simp only [buildFields]
        rw [hd2, hd1]
        simp

/-- Record keys that stay clear of the reserved tags are invisible to
every tag probe of the decoder. -/
theorem jfieldOpt_encTFields_reserved (tag : String)
    (htag : reservedTags.contains tag = true) :
    ∀ fs : List (String × TVal),
      (fs.map Prod.fst).all (fun k => !(reservedTags.contains k)) = true →
      jfieldOpt (encTFields fs) tag = none := by
  intro fs
  induction fs with
  | nil => intro _; simp [encTFields, jfieldOpt, jlook]
  | cons kv fs ih =>
    intro hok
    obtain ⟨k, v⟩ := kv
    rw [List.map_cons, List.all_cons, Bool.and_eq_true] at hok
    have hk : k ≠ tag := by
      intro he
      rw [he] at hok
      rw [htag] at hok
      simp at hok
    have := ih hok.2
    simp only [encTFields, jfieldOpt, jlook] at this ⊢
    rw [if_neg hk]
    exact this

/-- Decoding the encoding of a good tree yields its structural copy. -/
theorem decode_encT : ∀ fuel : Nat,
    (∀ (t : TVal) (ctx : DCtx) (refs : EVal),
       GoodT t = true → tsize t ≤ fuel →
       deserializeValue fuel (encT t) ctx refs = .ok (toDVal t))
    ∧ (∀ (es : List (TVal × TVal)) (ctx : DCtx) (refs : EVal),
        GoodPairs es = true → tsizePairs es ≤ fuel →
        deserializePairs (fun e => deserializeValue fuel e ctx refs)
          ((encTPairs es).map (fun p => EVal.arr [p.1, p.2]))
          = .ok (toDValPairs es))
    ∧ (∀ (ts : List TVal) (ctx : DCtx) (refs : EVal),
        GoodList ts = true → tsizeList ts ≤ fuel →
        deserializeList (fun e => deserializeValue fuel e ctx refs)
          (encTList ts) = .ok (toDValList ts))
    ∧ (∀ (fs : List (String × TVal)) (ctx : DCtx) (refs : EVal),
        GoodFields fs = true → tsizeFields fs ≤ fuel →
        deserializeFields (fun e => deserializeValue fuel e ctx refs)
          (encTFields fs) = .ok (toDValFields fs)) := by
  intro fuel
  induction fuel with
  | zero =>
    refine ⟨?_, ?_, ?_, ?_⟩
    · intro t ctx refs _ h
      exact absurd h (by have := tsize_pos t; omega)
    · intro es ctx refs _ h
      cases es with
      | nil => simp [encTPairs, deserializePairs, toDValPairs]
      | cons kv es =>
        exfalso
        have := tsize_pos kv.1
        rw [show tsizePairs (kv :: es)
            = tsize kv.1 + tsize kv.2 + tsizePairs es from by
          obtain ⟨k, v⟩ := kv; rfl] at h
        omega
    · intro ts ctx refs _ h
      cases ts with
      | nil => simp [encTList, deserializeList, toDValList]
      | cons t ts =>
        exfalso
        have := tsize_pos t
        simp only [tsizeList] at h
        omega
    · intro fs ctx refs _ h
      cases fs with
      | nil => simp [encTFields, deserializeFields, toDValFields]
      | cons kv fs =>
        exfalso
        have := tsize_pos kv.2
        rw [show tsizeFields (kv :: fs) = tsize kv.2 + tsizeFields fs from by
          obtain ⟨k, v⟩ := kv; rfl] at h
        omega
  | succ f ih =>
    have hv : ∀ (t : TVal) (ctx : DCtx) (refs : EVal),
        GoodT t = true → tsize t ≤ f + 1 →
        deserializeValue (f + 1) (encT t) ctx refs = .ok (toDVal t) := by
      intro t ctx refs hg hsz
      cases t with
      | null => simp [encT, deserializeValue, toDVal]
      | num x => simp [encT, deserializeValue, toDVal]
      | str x => simp [encT, deserializeValue, toDVal]
      | bool x => simp [encT, deserializeValue, toDVal]
      | date iso =>
        simp [encT, deserializeValue, toDVal, jfieldOpt, jlook,
          mapTag, setTag, textRangeTag, textRangeCollectionTag, parseNodeTag,
          diagnosticTag, dateTag, regExpTag, circularTag]
      | regexp s fl =>
        simp [encT, deserializeValue, toDVal, jfieldOpt, jlook, destructure,
          mapTag, setTag, textRangeTag, textRangeCollectionTag, parseNodeTag,
          diagnosticTag, dateTag, regExpTag, circularTag]
      | range s l =>
        simp [encT, deserializeValue, toDVal, jfieldOpt, jlook, destructure,
          rawOfE,
          mapTag, setTag, textRangeTag, textRangeCollectionTag, parseNodeTag,
          diagnosticTag, dateTag, regExpTag, circularTag]
      | diag c m r =>
        have h3 : tsize r ≤ f := by simp only [tsize] at hsz; omega
        have hg3 : GoodT r = true := by simpa [GoodT] using hg
        have hr := ih.1 r ctx refs hg3 h3
        simp [encT, deserializeValue, toDVal, jfieldOpt, jlook, destructure,
          rawOfE, hr,
          mapTag, setTag, textRangeTag, textRangeCollectionTag, parseNodeTag,
          diagnosticTag, dateTag, regExpTag, circularTag]
      | tmap es =>
        have h3 : tsizePairs es ≤ f := by simp only [tsize] at hsz; omega
        have hg3 : GoodPairs es = true := by simpa [GoodT] using hg
        have hp := ih.2.1 es ctx refs hg3 h3
        simp [encT, deserializeValue, toDVal, jfieldOpt, jlook, hp,
          mapTag, setTag, textRangeTag, textRangeCollectionTag, parseNodeTag,
          diagnosticTag, dateTag, regExpTag, circularTag]
      | tset es =>
        have h3 : tsizeList es ≤ f := by simp only [tsize] at hsz; omega
        have hg3 : GoodList es = true := by simpa [GoodT] using hg
        have hp := ih.2.2.1 es ctx refs hg3 h3
        simp [encT, deserializeValue, toDVal, jfieldOpt, jlook, hp,
          mapTag, setTag, textRangeTag, textRangeCollectionTag, parseNodeTag,
          diagnosticTag, dateTag, regExpTag, circularTag]
      | arr es =>
        have h3 : tsizeList es ≤ f := by simp only [tsize] at hsz; omega
        have hg3 : GoodList es = true := by simpa [GoodT] using hg
        have hp := ih.2.2.1 es ctx refs hg3 h3
        simp [encT, deserializeValue, toDVal, hp]
      | obj fs =>
        have h3 : tsizeFields fs ≤ f := by simp only [tsize] at hsz; omega
        have hgs : recordShapeOK fs = true ∧ GoodFields fs = true := by
          simpa [GoodT, Bool.and_eq_true] using hg
        have hkeys : (fs.map Prod.fst).all
            (fun k => !(reservedTags.contains k)) = true := by
          have h4 := hgs.1
          simp only [recordShapeOK, Bool.and_eq_true] at h4
          exact h4.1.1.2
        have hp := ih.2.2.2 fs ctx refs hgs.2 h3
        have m1 := jfieldOpt_encTFields_reserved circularTag (by decide) fs hkeys
        have m2 := jfieldOpt_encTFields_reserved dateTag (by decide) fs hkeys
        have m3 := jfieldOpt_encTFields_reserved regExpTag (by decide) fs hkeys
        have m4 := jfieldOpt_encTFields_reserved mapTag (by decide) fs hkeys
        have m5 := jfieldOpt_encTFields_reserved setTag (by decide) fs hkeys
        have m6 := jfieldOpt_encTFields_reserved textRangeTag (by decide) fs hkeys
        have m7 := jfieldOpt_encTFields_reserved textRangeCollectionTag
          (by decide) fs hkeys
        have m8 := jfieldOpt_encTFields_reserved parseNodeTag (by decide) fs hkeys
        have m9 := jfieldOpt_encTFields_reserved diagnosticTag (by decide) fs hkeys
        simp [encT, deserializeValue, toDVal, m1, m2, m3, m4, m5, m6, m7,
          m8, m9, hp]
    refine ⟨hv, ?_, ?_, ?_⟩
    · intro es
      induction es with
      | nil => intro ctx refs _ _; simp [encTPairs, deserializePairs, toDValPairs]
      | cons kv es ihes =>
        intro ctx refs hg hsz
        obtain ⟨k, v⟩ := kv
        rw [show tsizePairs ((k, v) :: es)
            = tsize k + tsize v + tsizePairs es from rfl] at hsz
        have hgs : GoodT k = true ∧ GoodT v = true ∧ GoodPairs es = true := by
          simpa [GoodPairs, Bool.and_eq_true, and_assoc] using hg
        have hk := hv k ctx refs hgs.1 (by omega)
        have hvv := hv v ctx refs hgs.2.1 (by omega)
        have ht := ihes ctx refs hgs.2.2 (by omega)
        simp only [encTPairs, List.map_cons]
        simp [deserializePairs, entryParts, hk, hvv, ht, toDValPairs]
    · intro ts
      induction ts with
      | nil => intro ctx refs _ _; simp [encTList, deserializeList, toDValList]
      | cons t ts ihts =>
        intro ctx refs hg hsz
        rw [show tsizeList (t :: ts) = tsize t + tsizeList ts from rfl] at hsz
        have hgs : GoodT t = true ∧ GoodList ts = true := by
          simpa [GoodList, Bool.and_eq_true] using hg
        have h1 := hv t ctx refs hgs.1 (by have := tsize_pos t; omega)
        have ht := ihts ctx refs hgs.2 (by omega)
        simp only [encTList]
        simp [deserializeList, h1, ht, toDValList]
    · intro fs
      induction fs with
      | nil => intro ctx refs _ _; simp [encTFields, deserializeFields, toDValFields]
      | cons kv fs ihfs =>
        intro ctx refs hg hsz
        obtain ⟨k, v⟩ := kv
        rw [show tsizeFields ((k, v) :: fs)
            = tsize v + tsizeFields fs from rfl] at hsz
        have hgs : GoodT v = true ∧ GoodFields fs = true := by
          simpa [GoodFields, Bool.and_eq_true] using hg
        have h1 := hv v ctx refs hgs.1 (by have := tsize_pos v; omega)
        have ht := ihfs ctx refs hgs.2 (by omega)
        simp only [encTFields]
        simp [deserializeFields, h1, ht, toDValFields]

/-- Looking up the freshly appended node. -/
theorem store_get_appended (l1 : Store) (node : HObj) (d : Store) (S : Store)
    (h : (l1 ++ [node]) ++ d = S) : S[l1.length]? = some node := by
  rw [← h, List.append_assoc, List.getElem?_append_right (le_refl _)]
  simp

def isNumTV : TVal → Bool
  | .num _ => true
  | _ => false

def isNumJV : JVal → Bool
  | .num _ => true
  | _ => false

theorem build_isNum (v : TVal) (s : Store) :
    isNumJV (build v s).1 = isNumTV v := by
  cases v <;> simp [build, isNumJV, isNumTV]

/-- Characterize property lookup on a built record: the key is either
absent on both sides or bound to the built value of the tree field. -/
theorem buildFields_getOwn : ∀ (fs : List (String × TVal)) (s : Store)
    (k : String),
    (getOwn (buildFields fs s).1 k = none ∧ findT fs k = none)
    ∨ ∃ v s2, findT fs k = some v
        ∧ getOwn (buildFields fs s).1 k = some (.val (build v s2).1) := by
  intro fs
  induction fs with
  | nil => intro s k; exact Or.inl ⟨rfl, rfl⟩
  | cons kv fs ih =>
    intro s k
    obtain ⟨k2, v⟩ := kv
    by_cases he : k2 = k
    · refine Or.inr ⟨v, s, ?_, ?_⟩
      · simp [findT, he]
      · simp [buildFields, getOwn, he]
    · rcases ih (build v s).2 k with ⟨h1, h2⟩ | ⟨w, s2, h1, h2⟩
      · refine Or.inl ⟨?_, ?_⟩
        · simpa [buildFields, getOwn, he] using h1
        · simpa [findT, he] using h2
      · refine Or.inr ⟨w, s2, ?_, ?_⟩
        · simpa [findT, he] using h1
        · simpa [buildFields, getOwn, he] using h2

/-- A built record without numeric `start`/`length`, and missing one of
the diagnostic keys, dispatches to the plain-record branch. -/
theorem duckKind_buildFields (fs : List (String × TVal)) (s : Store)
    (htr : (isNumT (findT fs "start") && isNumT (findT fs "length")) = false)
    (hdg : ((findT fs "category").isSome && (findT fs "message").isSome
        && (findT fs "range").isSome) = false) :
    duckKind (.hobj (buildFields fs s).1) = .ok .plain := by
  have htrg : isTextRange (.hobj (buildFields fs s).1) = .ok false := by
    unfold isTextRange
    rcases buildFields_getOwn fs s "start" with ⟨h1, h2⟩ | ⟨v, s2, h1, h2⟩
    · simp [readProp, hProp, h1]
    · rw [show readProp (.hobj (buildFields fs s).1) "start"
          = .ok (build v s2).1 from by simp [readProp, hProp, h2]]
      cases hv : (build v s2).1 with
      | num x =>
        have hnv : isNumT (findT fs "start") = true := by
          have := build_isNum v s2
          rw [hv] at this
          simp [isNumJV] at this
          cases v <;> simp_all [isNumTV, isNumT, h1]
        have hlen : isNumT (findT fs "length") = false := by
          rw [Bool.and_eq_false_iff] at htr
          rcases htr with h | h
          · rw [hnv] at h; cases h
          · exact h
        rcases buildFields_getOwn fs s "length" with ⟨g1, g2⟩ | ⟨w, s3, g1, g2⟩
        · simp [readProp, hProp, g1]
        · rw [show readProp (.hobj (buildFields fs s).1) "length"
              = .ok (build w s3).1 from by simp [readProp, hProp, g2]]
          have := build_isNum w s3
          rw [g1] at hlen
          cases hw : (build w s3).1 with
          | num y =>
            exfalso
            rw [hw] at this
            simp [isNumJV] at this
            cases w <;> simp_all [isNumTV, isNumT]
          | null => rfl
          | undef => rfl
          | str y => rfl
          | bool y => rfl
          | func => rfl
          | ref y => rfl
      | null => rfl
      | undef => rfl
      | str x => rfl
      | bool x => rfl
      | func => rfl
      | ref x => rfl
  have hpn : isParseNode (.hobj (buildFields fs s).1) = .ok false ∨
      isParseNode (.hobj (buildFields fs s).1) = isTextRange (.hobj (buildFields fs s).1) := by
    unfold isParseNode
    by_cases hc : (hasProp (.hobj (buildFields fs s).1) "nodeType"
        && hasProp (.hobj (buildFields fs s).1) "id") = true
    · exact Or.inr (by rw [if_pos hc])
    · refine Or.inl ?_
      rw [if_neg hc]
  have hdiag : isDiagnostic (.hobj (buildFields fs s).1) = false := by
    unfold isDiagnostic
    have hc : ∀ k2, hasProp (.hobj (buildFields fs s).1) k2
        = (findT fs k2).isSome := by
      intro k2
      rcases buildFields_getOwn fs s k2 with ⟨h1, h2⟩ | ⟨v, s2, h1, h2⟩
      · simp [hasProp, hProp, h1, h2]
      · simp [hasProp, hProp, h1, h2]
    rw [hc, hc, hc]
    rw [Bool.and_eq_false_iff] at hdg
    rcases hdg with h | h
    · rw [Bool.and_eq_false_iff] at h
      rcases h with h | h <;> simp [h]
    · simp [h]
  unfold duckKind
  rw [htrg]
  rcases hpn with h | h
  · rw [h, hdiag]
    simp
  · rw [h, htrg, hdiag]
    simp

/-- No address in the window `[lo, hi)` has been assigned an identity. -/
def seenOutside (ctx : SCtx) (lo hi : Nat) : Prop :=
  ∀ a, lo ≤ a → a < hi → lookupSeen ctx.seen a = none

theorem lookupSeen_mark_ne (seen : List (Addr × Nat)) (a x : Nat) (i : Nat)
    (h : ¬(a = x)) : lookupSeen ((a, i) :: seen) x = lookupSeen seen x := by
  simp [lookupSeen, h]

theorem serializeList_cons (rec : JVal → SCtx → SRes EVal) (v : JVal)
    (vs : List JVal) (ctx ctx1 : SCtx) (e : EVal)
    (hrec : rec v ctx = .ok e ctx1) :
    serializeList rec (v :: vs) ctx
      = (match serializeList rec vs ctx1 with
         | .out => SRes.out
         | .thrown m c => SRes.thrown m c
         | .ok es c2 => SRes.ok (e :: es) c2) := by
  simp [serializeList, hrec]

theorem serializePairs_cons (rec : JVal → SCtx → SRes EVal) (k v : JVal)
    (rest : List (JVal × JVal)) (ctx ctx1 ctx2 : SCtx) (ke ve : EVal)
    (hk : rec k ctx = .ok ke ctx1) (hv : rec v ctx1 = .ok ve ctx2) :
    serializePairs rec ((k, v) :: rest) ctx
      = (match serializePairs rec rest ctx2 with
         | .out => SRes.out
         | .thrown m c => SRes.thrown m c
         | .ok ps c3 => SRes.ok ((ke, ve) :: ps) c3) := by
  simp [serializePairs, hk, hv]

theorem serializeFields_cons_val (rec : JVal → SCtx → SRes EVal) (k : String)
    (v : JVal) (fs : List (String × JProp)) (ctx ctx1 : SCtx) (e : EVal)
    (hrec : rec v ctx = .ok e ctx1) (hne : e ≠ .undef) :
    serializeFields rec ((k, .val v) :: fs) ctx
      = (match serializeFields rec fs ctx1 with
         | .out => SRes.out
         | .thrown m c => SRes.thrown m c
         | .ok es c2 => SRes.ok ((k, e) :: es) c2) := by
  cases e with
  | undef => exact absurd rfl hne
  | null => simp [serializeFields, hrec]
  | num x => simp [serializeFields, hrec]
  | str x => simp [serializeFields, hrec]
  | bool x => simp [serializeFields, hrec]
  | arr x => simp [serializeFields, hrec]
  | obj x => simp [serializeFields, hrec]

/-- Serializing a freshly built tree produces its encoding: every node
is visited exactly once (no circular markers), and the identity table
outside the tree's address window is untouched. -/
theorem serialize_build : ∀ fuel : Nat,
    (∀ (t : TVal) (s0 S : Store) (ctx : SCtx),
       GoodT t = true → tsize t ≤ fuel →
       (∃ d, (build t s0).2 ++ d = S) →
       seenOutside ctx s0.length (build t s0).2.length →
       ∃ ctx2,
         serializeValue fuel S (build t s0).1 ctx = .ok (encT t) ctx2
         ∧ ∀ x, x < s0.length ∨ (build t s0).2.length ≤ x →
             lookupSeen ctx2.seen x = lookupSeen ctx.seen x)
    ∧ (∀ (es : List (TVal × TVal)) (s0 S : Store) (ctx : SCtx),
        GoodPairs es = true → tsizePairs es ≤ fuel →
        (∃ d, (buildPairs es s0).2 ++ d = S) →
        seenOutside ctx s0.length (buildPairs es s0).2.length →
        ∃ ctx2,
          serializePairs (serializeValue fuel S) (buildPairs es s0).1 ctx
            = .ok (encTPairs es) ctx2
          ∧ ∀ x, x < s0.length ∨ (buildPairs es s0).2.length ≤ x →
              lookupSeen ctx2.seen x = lookupSeen ctx.seen x)
    ∧ (∀ (ts : List TVal) (s0 S : Store) (ctx : SCtx),
        GoodList ts = true → tsizeList ts ≤ fuel →
        (∃ d, (buildList ts s0).2 ++ d = S) →
        seenOutside ctx s0.length (buildList ts s0).2.length →
        ∃ ctx2,
          serializeList (serializeValue fuel S) (buildList ts s0).1 ctx
            = .ok (encTList ts) ctx2
          ∧ ∀ x, x < s0.length ∨ (buildList ts s0).2.length ≤ x →
              lookupSeen ctx2.seen x = lookupSeen ctx.seen x)
    ∧ (∀ (fs : List (String × TVal)) (s0 S : Store) (ctx : SCtx),
        GoodFields fs = true → tsizeFields fs ≤ fuel →
        (∃ d, (buildFields fs s0).2 ++ d = S) →
        seenOutside ctx s0.length (buildFields fs s0).2.length →
        ∃ ctx2,
          serializeFields (serializeValue fuel S) (buildFields fs s0).1 ctx
            = .ok (encTFields fs) ctx2
          ∧ ∀ x, x < s0.length ∨ (buildFields fs s0).2.length ≤ x →
              lookupSeen ctx2.seen x = lookupSeen ctx.seen x) := by
  intro fuel
  induction fuel with
  | zero =>
    refine ⟨?_, ?_, ?_, ?_⟩
    · intro t s0 S ctx _ h
      exact absurd h (by have := tsize_pos t; omega)
    · intro es s0 S ctx _ h _ _
      cases es with
      | nil =>
        exact ⟨ctx, by simp [buildPairs, serializePairs, encTPairs],
          fun x _ => rfl⟩
      | cons kv es =>
        exfalso
        have := tsize_pos kv.1
        rw [show tsizePairs (kv :: es)
            = tsize kv.1 + tsize kv.2 + tsizePairs es from by
          obtain ⟨k, v⟩ := kv; rfl] at h
        omega
    · intro ts s0 S ctx _ h _ _
      cases ts with
      | nil =>
        exact ⟨ctx, by simp [buildList, serializeList, encTList],
          fun x _ => rfl⟩
      | cons t ts =>
        exfalso
        have := tsize_pos t
        simp only [tsizeList] at h
        omega
    · intro fs s0 S ctx _ h _ _
      cases fs with
      | nil =>
        exact ⟨ctx, by simp [buildFields, serializeFields, encTFields],
          fun x _ => rfl⟩
      | cons kv fs =>
        exfalso
        have := tsize_pos kv.2
        rw [show tsizeFields (kv :: fs) = tsize kv.2 + tsizeFields fs from by
          obtain ⟨k, v⟩ := kv; rfl] at h
        omega
  | succ f ih =>
    have hv : ∀ (t : TVal) (s0 S : Store) (ctx : SCtx),
        GoodT t = true → tsize t ≤ f + 1 →
        (∃ d, (build t s0).2 ++ d = S) →
        seenOutside ctx s0.length (build t s0).2.length →
        ∃ ctx2,
          serializeValue (f + 1) S (build t s0).1 ctx = .ok (encT t) ctx2
          ∧ ∀ x, x < s0.length ∨ (build t s0).2.length ≤ x →
              lookupSeen ctx2.seen x = lookupSeen ctx.seen x := by
      intro t s0 S ctx hg hsz hS hout
      cases t with
      | null => exact ⟨ctx, by simp [build, serializeValue, encT], fun x _ => rfl⟩
      | num n => exact ⟨ctx, by simp [build, serializeValue, encT], fun x _ => rfl⟩
      | str s => exact ⟨ctx, by simp [build, serializeValue, encT], fun x _ => rfl⟩
      | bool b => exact ⟨ctx, by simp [build, serializeValue, encT], fun x _ => rfl⟩
      | date iso =>
        obtain ⟨d, hd⟩ := hS
        refine ⟨⟨(s0.length, ctx.refCount) :: ctx.seen, ctx.refs,
          ctx.refCount + 1⟩, ?_, ?_⟩
        · rw [show (build (.date iso) s0).1 = JVal.ref s0.length from by
            simp [build]]
          rw [serializeValue_ref_unseen f S s0.length ctx (.date iso)
            (hout s0.length (le_refl _) (by simp [build]))
            (store_get_appended s0 (.date iso) d S (by
              simpa [build] using hd))]
          simp [serializeObject, encT]
        · intro x hx
          refine lookupSeen_mark_ne ctx.seen s0.length x ctx.refCount ?_
          rw [show (build (.date iso) s0).2.length = s0.length + 1 from by
            simp [build]] at hx
          omega
      | regexp so fl =>
        obtain ⟨d, hd⟩ := hS
        refine ⟨⟨(s0.length, ctx.refCount) :: ctx.seen, ctx.refs,
          ctx.refCount + 1⟩, ?_, ?_⟩
        · rw [show (build (.regexp so fl) s0).1 = JVal.ref s0.length from by
            simp [build]]
          rw [serializeValue_ref_unseen f S s0.length ctx (.regexp so fl)
            (hout s0.length (le_refl _) (by simp [build]))
            (store_get_appended s0 (.regexp so fl) d S (by
              simpa [build] using hd))]
          simp [serializeObject, encT]
        · intro x hx
          refine lookupSeen_mark_ne ctx.seen s0.length x ctx.refCount ?_
          rw [show (build (.regexp so fl) s0).2.length = s0.length + 1 from by
            simp [build]] at hx
          omega
      | range st l =>
        obtain ⟨d, hd⟩ := hS
        refine ⟨⟨(s0.length, ctx.refCount) :: ctx.seen, ctx.refs,
          ctx.refCount + 1⟩, ?_, ?_⟩
        · rw [show (build (.range st l) s0).1 = JVal.ref s0.length from by
            simp [build]]
          rw [serializeValue_ref_unseen f S s0.length ctx
            (.hobj [("start", .val (.num st)), ("length", .val (.num l))])
            (hout s0.length (le_refl _) (by simp [build]))
            (store_get_appended s0 _ d S (by simpa [build] using hd))]
          simp [serializeObject, serializeDucked, duckKind, isTextRange,
            readProp, hProp, getOwn, mkTextRangeWrapper, encT]
        · intro x hx
          refine lookupSeen_mark_ne ctx.seen s0.length x ctx.refCount ?_
          rw [show (build (.range st l) s0).2.length = s0.length + 1 from by
            simp [build]] at hx
          omega
      | diag c m r =>
        obtain ⟨d, hd⟩ := hS
        have h3 : tsize r ≤ f := by simp only [tsize] at hsz; omega
        have hg3 : GoodT r = true := by simpa [GoodT] using hg
        obtain ⟨⟨d0, hd0⟩, _⟩ := (buildFacts (tsize r)).1 r s0 (le_refl _)
        have hlen0 : s0.length ≤ (build r s0).2.length := by
          rw [hd0]; simp
        have hb1 : (build (.diag c m r) s0).1
            = JVal.ref (build r s0).2.length := by simp [build]
        have hb2 : (build (.diag c m r) s0).2
            = (build r s0).2 ++ [.hobj [("category", .val (.num c)),
                ("message", .val (.str m)),
                ("range", .val (build r s0).1)]] := by simp [build]
        have hb2len : (build (.diag c m r) s0).2.length
            = (build r s0).2.length + 1 := by rw [hb2]; simp
        have hunseen : lookupSeen ctx.seen (build r s0).2.length = none :=
          hout _ hlen0 (by omega)
        have hout1 : seenOutside
            ⟨((build r s0).2.length, ctx.refCount) :: ctx.seen, ctx.refs,
              ctx.refCount + 1⟩ s0.length (build r s0).2.length := by
          intro x hx1 hx2
          rw [show lookupSeen
              (((build r s0).2.length, ctx.refCount) :: ctx.seen) x
              = lookupSeen ctx.seen x from
            lookupSeen_mark_ne _ _ _ _ (by omega)]
          exact hout x hx1 (by omega)
        obtain ⟨ctxr, hser, hpres⟩ := ih.1 r s0 S
          ⟨((build r s0).2.length, ctx.refCount) :: ctx.seen, ctx.refs,
            ctx.refCount + 1⟩ hg3 h3
          ⟨[.hobj [("category", .val (.num c)), ("message", .val (.str m)),
              ("range", .val (build r s0).1)]] ++ d, by
            rw [← List.append_assoc, ← hb2]; exact hd⟩ hout1
        refine ⟨ctxr, ?_, ?_⟩
        · rw [hb1, serializeValue_ref_unseen f S (build r s0).2.length ctx _
            hunseen (store_get_appended (build r s0).2 _ d S
              (by rw [← hb2]; exact hd))]
          simp [serializeObject, serializeDucked, duckKind, isTextRange,
            isParseNode, isDiagnostic, readProp, hProp, getOwn, hasProp,
            serializeDiag, rawScalar, hser, encT]
        · intro x hx
          rw [hb2len] at hx
          rw [hpres x (by omega)]
          exact lookupSeen_mark_ne _ _ _ _ (by omega)
      | tmap es =>
        obtain ⟨d, hd⟩ := hS
        have h3 : tsizePairs es ≤ f := by simp only [tsize] at hsz; omega
        have hg3 : GoodPairs es = true := by simpa [GoodT] using hg
        obtain ⟨d0, hd0⟩ := (buildFacts (tsizePairs es)).2.1 es s0 (le_refl _)
        have hlen0 : s0.length ≤ (buildPairs es s0).2.length := by
          rw [hd0]; simp
        have hb1 : (build (.tmap es) s0).1
            = JVal.ref (buildPairs es s0).2.length := by simp [build]
        have hb2 : (build (.tmap es) s0).2
            = (buildPairs es s0).2 ++ [.hmap (buildPairs es s0).1] := by
          simp [build]
        have hb2len : (build (.tmap es) s0).2.length
            = (buildPairs es s0).2.length + 1 := by rw [hb2]; simp
        have hunseen : lookupSeen ctx.seen (buildPairs es s0).2.length = none :=
          hout _ hlen0 (by omega)
        have hout1 : seenOutside
            ⟨((buildPairs es s0).2.length, ctx.refCount) :: ctx.seen, ctx.refs,
              ctx.refCount + 1⟩ s0.length (buildPairs es s0).2.length := by
          intro x hx1 hx2
          rw [show lookupSeen
              (((buildPairs es s0).2.length, ctx.refCount) :: ctx.seen) x
              = lookupSeen ctx.seen x from
            lookupSeen_mark_ne _ _ _ _ (by omega)]
          exact hout x hx1 (by omega)
        obtain ⟨ctx2, hser, hpres⟩ := ih.2.1 es s0 S
          ⟨((buildPairs es s0).2.length, ctx.refCount) :: ctx.seen, ctx.refs,
            ctx.refCount + 1⟩ hg3 h3
          ⟨[.hmap (buildPairs es s0).1] ++ d, by
            rw [← List.append_assoc, ← hb2]; exact hd⟩ hout1
        refine ⟨ctx2, ?_, ?_⟩
        · rw [hb1, serializeValue_ref_unseen f S (buildPairs es s0).2.length
            ctx _ hunseen (store_get_appended (buildPairs es s0).2 _ d S
              (by rw [← hb2]; exact hd))]
          simp [serializeObject, hser, encT]
        · intro x hx
          rw [hb2len] at hx
          rw [hpres x (by omega)]
          exact lookupSeen_mark_ne _ _ _ _ (by omega)
      | tset es =>
        obtain ⟨d, hd⟩ := hS
        have h3 : tsizeList es ≤ f := by simp only [tsize] at hsz; omega
        have hg3 : GoodList es = true := by simpa [GoodT] using hg
        obtain ⟨d0, hd0⟩ := (buildFacts (tsizeList es)).2.2.1 es s0 (le_refl _)
        have hlen0 : s0.length ≤ (buildList es s0).2.length := by
          rw [hd0]; simp
        have hb1 : (build (.tset es) s0).1
            = JVal.ref (buildList es s0).2.length := by simp [build]
        have hb2 : (build (.tset es) s0).2
            = (buildList es s0).2 ++ [.hset (buildList es s0).1] := by
          simp [build]
        have hb2len : (build (.tset es) s0).2.length
            = (buildList es s0).2.length + 1 := by rw [hb2]; simp
        have hunseen : lookupSeen ctx.seen (buildList es s0).2.length = none :=
          hout _ hlen0 (by omega)
        have hout1 : seenOutside
            ⟨((buildList es s0).2.length, ctx.refCount) :: ctx.seen, ctx.refs,
              ctx.refCount + 1⟩ s0.length (buildList es s0).2.length := by
          intro x hx1 hx2
          rw [show lookupSeen
              (((buildList es s0).2.length, ctx.refCount) :: ctx.seen) x
              = lookupSeen ctx.seen x from
            lookupSeen_mark_ne _ _ _ _ (by omega)]
          exact hout x hx1 (by omega)
        obtain ⟨ctx2, hser, hpres⟩ := ih.2.2.1 es s0 S
          ⟨((buildList es s0).2.length, ctx.refCount) :: ctx.seen, ctx.refs,
            ctx.refCount + 1⟩ hg3 h3
          ⟨[.hset (buildList es s0).1] ++ d, by
            rw [← List.append_assoc, ← hb2]; exact hd⟩ hout1
        refine ⟨ctx2, ?_, ?_⟩
        · rw [hb1, serializeValue_ref_unseen f S (buildList es s0).2.length
            ctx _ hunseen (store_get_appended (buildList es s0).2 _ d S
              (by rw [← hb2]; exact hd))]
          simp [serializeObject, hser, encT]
        · intro x hx
          rw [hb2len] at hx
          rw [hpres x (by omega)]
          exact lookupSeen_mark_ne _ _ _ _ (by omega)
      | arr es =>
        obtain ⟨d, hd⟩ := hS
        have h3 : tsizeList es ≤ f := by simp only [tsize] at hsz; omega
        have hg3 : GoodList es = true := by simpa [GoodT] using hg
        obtain ⟨d0, hd0⟩ := (buildFacts (tsizeList es)).2.2.1 es s0 (le_refl _)
        have hlen0 : s0.length ≤ (buildList es s0).2.length := by
          rw [hd0]; simp
        have hb1 : (build (.arr es) s0).1
            = JVal.ref (buildList es s0).2.length := by simp [build]
        have hb2 : (build (.arr es) s0).2
            = (buildList es s0).2 ++ [.harr (buildList es s0).1] := by
          simp [build]
        have hb2len : (build (.arr es) s0).2.length
            = (buildList es s0).2.length + 1 := by rw [hb2]; simp
        have hunseen : lookupSeen ctx.seen (buildList es s0).2.length = none :=
          hout _ hlen0 (by omega)
        have hout1 : seenOutside
            ⟨((buildList es s0).2.length, ctx.refCount) :: ctx.seen, ctx.refs,
              ctx.refCount + 1⟩ s0.length (buildList es s0).2.length := by
          intro x hx1 hx2
          rw [show lookupSeen
              (((buildList es s0).2.length, ctx.refCount) :: ctx.seen) x
              = lookupSeen ctx.seen x from
            lookupSeen_mark_ne _ _ _ _ (by omega)]
          exact hout x hx1 (by omega)
        obtain ⟨ctx2, hser, hpres⟩ := ih.2.2.1 es s0 S
          ⟨((buildList es s0).2.length, ctx.refCount) :: ctx.seen, ctx.refs,
            ctx.refCount + 1⟩ hg3 h3
          ⟨[.harr (buildList es s0).1] ++ d, by
            rw [← List.append_assoc, ← hb2]; exact hd⟩ hout1
        refine ⟨ctx2, ?_, ?_⟩
        · rw [hb1, serializeValue_ref_unseen f S (buildList es s0).2.length
            ctx _ hunseen (store_get_appended (buildList es s0).2 _ d S
              (by rw [← hb2]; exact hd))]
          simp [serializeObject, serializeDucked, duckKind, isTextRange,
            isParseNode, isDiagnostic, readProp, hProp, hasProp, hser, encT]
        · intro x hx
          rw [hb2len] at hx
          rw [hpres x (by omega)]
          exact lookupSeen_mark_ne _ _ _ _ (by omega)
      | obj fs =>
        obtain ⟨d, hd⟩ := hS
        have h3 : tsizeFields fs ≤ f := by simp only [tsize] at hsz; omega
        have hgs : recordShapeOK fs = true ∧ GoodFields fs = true := by
          simpa [GoodT, Bool.and_eq_true] using hg
        have htr : (isNumT (findT fs "start")
            && isNumT (findT fs "length")) = false := by
          have h4 := hgs.1
          simp only [recordShapeOK, Bool.and_eq_true, bool_not_true] at h4
          exact h4.1.2
        have hdg2 : ((findT fs "category").isSome
            && (findT fs "message").isSome
            && (findT fs "range").isSome) = false := by
          have h4 := hgs.1
          simp only [recordShapeOK, Bool.and_eq_true, bool_not_true] at h4
          exact h4.2
        obtain ⟨d0, hd0⟩ := (buildFacts (tsizeFields fs)).2.2.2 fs s0 (le_refl _)
        have hlen0 : s0.length ≤ (buildFields fs s0).2.length := by
          rw [hd0]; simp
        have hb1 : (build (.obj fs) s0).1
            = JVal.ref (buildFields fs s0).2.length := by simp [build]
        have hb2 : (build (.obj fs) s0).2
            = (buildFields fs s0).2 ++ [.hobj (buildFields fs s0).1] := by
          simp [build]
        have hb2len : (build (.obj fs) s0).2.length
            = (buildFields fs s0).2.length + 1 := by rw [hb2]; simp
        have hunseen : lookupSeen ctx.seen (buildFields fs s0).2.length = none :=
          hout _ hlen0 (by omega)
        have hout1 : seenOutside
            ⟨((buildFields fs s0).2.length, ctx.refCount) :: ctx.seen, ctx.refs,
              ctx.refCount + 1⟩ s0.length (buildFields fs s0).2.length := by
          intro x hx1 hx2
          rw [show lookupSeen
              (((buildFields fs s0).2.length, ctx.refCount) :: ctx.seen) x
              = lookupSeen ctx.seen x from
            lookupSeen_mark_ne _ _ _ _ (by omega)]
          exact hout x hx1 (by omega)
        obtain ⟨ctx2, hser, hpres⟩ := ih.2.2.2 fs s0 S
          ⟨((buildFields fs s0).2.length, ctx.refCount) :: ctx.seen, ctx.refs,
            ctx.refCount + 1⟩ hgs.2 h3
          ⟨[.hobj (buildFields fs s0).1] ++ d, by
            rw [← List.append_assoc, ← hb2]; exact hd⟩ hout1
        refine ⟨ctx2, ?_, ?_⟩
        · rw [hb1, serializeValue_ref_unseen f S (buildFields fs s0).2.length
            ctx _ hunseen (store_get_appended (buildFields fs s0).2 _ d S
              (by rw [← hb2]; exact hd))]
          rw [show serializeObject (serializeValue f S)
              (.hobj (buildFields fs s0).1)
              ⟨((buildFields fs s0).2.length, ctx.refCount) :: ctx.seen,
                ctx.refs, ctx.refCount + 1⟩
            = serializeDucked (serializeValue f S)
                (.hobj (buildFields fs s0).1)
                ⟨((buildFields fs s0).2.length, ctx.refCount) :: ctx.seen,
                  ctx.refs, ctx.refCount + 1⟩ from rfl]
          rw [show serializeDucked (serializeValue f S)
              (.hobj (buildFields fs s0).1)
              ⟨((buildFields fs s0).2.length, ctx.refCount) :: ctx.seen,
                ctx.refs, ctx.refCount + 1⟩
            = (match serializeFields (serializeValue f S)
                  (buildFields fs s0).1
                  ⟨((buildFields fs s0).2.length, ctx.refCount) :: ctx.seen,
                    ctx.refs, ctx.refCount + 1⟩ with
               | .out => SRes.out
               | .thrown m c => SRes.thrown m c
               | .ok xs c1 => SRes.ok (.obj xs) c1) from by
            unfold serializeDucked
            rw [duckKind_buildFields fs s0 htr hdg2]]
          rw [hser]
          simp [encT]
        · intro x hx
          rw [hb2len] at hx
          rw [hpres x (by omega)]
          exact lookupSeen_mark_ne _ _ _ _ (by omega)
    refine ⟨hv, ?_, ?_, ?_⟩
    · intro es
      induction es with
      | nil =>
        intro s0 S ctx _ _ _ _
        exact ⟨ctx, by simp [buildPairs, serializePairs, encTPairs],
          fun x _ => rfl⟩
      | cons kv es ihes =>
        intro s0 S ctx hg hsz hS hout
        obtain ⟨k, v⟩ := kv
        obtain ⟨d, hd⟩ := hS
        rw [show tsizePairs ((k, v) :: es)
            = tsize k + tsize v + tsizePairs es from rfl] at hsz
        have hgs : GoodT k = true ∧ GoodT v = true ∧ GoodPairs es = true := by
          simpa [GoodPairs, Bool.and_eq_true, and_assoc] using hg
        obtain ⟨⟨dk, hdk⟩, _⟩ := (buildFacts (tsize k)).1 k s0 (le_refl _)
        obtain ⟨⟨dv, hdv⟩, _⟩ :=
          (buildFacts (tsize v)).1 v (build k s0).2 (le_refl _)
        obtain ⟨dr, hdr⟩ := (buildFacts (tsizePairs es)).2.1 es
          (build v (build k s0).2).2 (le_refl _)
        have hlk : s0.length ≤ (build k s0).2.length := by rw [hdk]; simp
        have hlv : (build k s0).2.length
            ≤ (build v (build k s0).2).2.length := by rw [hdv]; simp
        have hlr : (build v (build k s0).2).2.length
            ≤ (buildPairs es (build v (build k s0).2).2).2.length := by
          rw [hdr]; simp
        have hb2 : (buildPairs ((k, v) :: es) s0).2
            = (buildPairs es (build v (build k s0).2).2).2 := by
          simp [buildPairs]
        have hb1 : (buildPairs ((k, v) :: es) s0).1
            = ((build k s0).1, (build v (build k s0).2).1)
                :: (buildPairs es (build v (build k s0).2).2).1 := by
          simp [buildPairs]
        rw [hb2] at hout hd
        obtain ⟨ctxk, hserk, hpk⟩ := hv k s0 S ctx hgs.1 (by omega)
          ⟨dv ++ (dr ++ d), by
            rw [← List.append_assoc, ← hdv, ← List.append_assoc, ← hdr]
            exact hd⟩
          (fun x hx1 hx2 => hout x hx1 (by omega))
        obtain ⟨ctxv, hserv, hpv⟩ := hv v (build k s0).2 S ctxk hgs.2.1
          (by omega)
          ⟨dr ++ d, by rw [← List.append_assoc, ← hdr]; exact hd⟩
          (fun x hx1 hx2 => by
            rw [hpk x (by omega)]
            exact hout x (by omega) (by omega))
        obtain ⟨ctx2, hserr, hpr⟩ := ihes (build v (build k s0).2).2 S ctxv
          hgs.2.2 (by omega) ⟨d, hd⟩
          (fun x hx1 hx2 => by
            rw [hpv x (by omega), hpk x (by omega)]
            exact hout x (by omega) (by omega))
        have hb2l : (buildPairs ((k, v) :: es) s0).2.length
            = (buildPairs es (build v (build k s0).2).2).2.length := by
          rw [hb2]
        refine ⟨ctx2, ?_, ?_⟩
        · rw [hb1, serializePairs_cons (serializeValue (f + 1) S)
            (build k s0).1 (build v (build k s0).2).1
            (buildPairs es (build v (build k s0).2).2).1 ctx ctxk ctxv
            (encT k) (encT v) hserk hserv, hserr]
          simp [encTPairs]
        · intro x hx
          rw [hpr x (by omega), hpv x (by omega), hpk x (by omega)]
    · intro ts
      induction ts with
      | nil =>
        intro s0 S ctx _ _ _ _
        exact ⟨ctx, by simp [buildList, serializeList, encTList],
          fun x _ => rfl⟩
      | cons t ts ihts =>
        intro s0 S ctx hg hsz hS hout
        obtain ⟨d, hd⟩ := hS
        rw [show tsizeList (t :: ts) = tsize t + tsizeList ts from rfl] at hsz
        have hgs : GoodT t = true ∧ GoodList ts = true := by
          simpa [GoodList, Bool.and_eq_true] using hg
        obtain ⟨⟨dk, hdk⟩, _⟩ := (buildFacts (tsize t)).1 t s0 (le_refl _)
        obtain ⟨dr, hdr⟩ :=
          (buildFacts (tsizeList ts)).2.2.1 ts (build t s0).2 (le_refl _)
        have hlk : s0.length ≤ (build t s0).2.length := by rw [hdk]; simp
        have hlr : (build t s0).2.length
            ≤ (buildList ts (build t s0).2).2.length := by rw [hdr]; simp
        have hb2 : (buildList (t :: ts) s0).2
            = (buildList ts (build t s0).2).2 := by simp [buildList]
        have hb1 : (buildList (t :: ts) s0).1
            = (build t s0).1 :: (buildList ts (build t s0).2).1 := by
          simp [buildList]
        rw [hb2] at hout hd
        obtain ⟨ctxk, hserk, hpk⟩ := hv t s0 S ctx hgs.1
          (by have := tsize_pos t; omega)
          ⟨dr ++ d, by rw [← List.append_assoc, ← hdr]; exact hd⟩
          (fun x hx1 hx2 => hout x hx1 (by omega))
        obtain ⟨ctx2, hserr, hpr⟩ := ihts (build t s0).2 S ctxk hgs.2
          (by omega) ⟨d, hd⟩
          (fun x hx1 hx2 => by
            rw [hpk x (by omega)]
            exact hout x (by omega) (by omega))
        have hb2l : (buildList (t :: ts) s0).2.length
            = (buildList ts (build t s0).2).2.length := by
          rw [hb2]
        refine ⟨ctx2, ?_, ?_⟩
        · rw [hb1, serializeList_cons (serializeValue (f + 1) S) (build t s0).1
            (buildList ts (build t s0).2).1 ctx ctxk (encT t) hserk, hserr]
          simp [encTList]
        · intro x hx
          rw [hpr x (by omega), hpk x (by omega)]
    · intro fs
      induction fs with
      | nil =>
        intro s0 S ctx _ _ _ _
        exact ⟨ctx, by simp [buildFields, serializeFields, encTFields],
          fun x _ => rfl⟩
      | cons kv fs ihfs =>
        intro s0 S ctx hg hsz hS hout
        obtain ⟨k, v⟩ := kv
        obtain ⟨d, hd⟩ := hS
        rw [show tsizeFields ((k, v) :: fs)
            = tsize v + tsizeFields fs from rfl] at hsz
        have hgs : GoodT v = true ∧ GoodFields fs = true := by
          simpa [GoodFields, Bool.and_eq_true] using hg
        obtain ⟨⟨dk, hdk⟩, _⟩ := (buildFacts (tsize v)).1 v s0 (le_refl _)
        obtain ⟨dr, hdr⟩ :=
          (buildFacts (tsizeFields fs)).2.2.2 fs (build v s0).2 (le_refl _)
        have hlk : s0.length ≤ (build v s0).2.length := by rw [hdk]; simp
        have hlr : (build v s0).2.length
            ≤ (buildFields fs (build v s0).2).2.length := by rw [hdr]; simp
        have hb2 : (buildFields ((k, v) :: fs) s0).2
            = (buildFields fs (build v s0).2).2 := by simp [buildFields]
        have hb1 : (buildFields ((k, v) :: fs) s0).1
            = (k, .val (build v s0).1)
                :: (buildFields fs (build v s0).2).1 := by
          simp [buildFields]
        rw [hb2] at hout hd
        obtain ⟨ctxk, hserk, hpk⟩ := hv v s0 S ctx hgs.1
          (by have := tsize_pos v; omega)
          ⟨dr ++ d, by rw [← List.append_assoc, ← hdr]; exact hd⟩
          (fun x hx1 hx2 => hout x hx1 (by omega))
        obtain ⟨ctx2, hserr, hpr⟩ := ihfs (build v s0).2 S ctxk hgs.2
          (by omega) ⟨d, hd⟩
          (fun x hx1 hx2 => by
            rw [hpk x (by omega)]
            exact hout x (by omega) (by omega))
        have hb2l : (buildFields ((k, v) :: fs) s0).2.length
            = (buildFields fs (build v s0).2).2.length := by
          rw [hb2]
        refine ⟨ctx2, ?_, ?_⟩
        · rw [hb1]
          rw [serializeFields_cons_val (serializeValue (f + 1) S) k
            (build v s0).1 (buildFields fs (build v s0).2).1 ctx ctxk
            (encT v) hserk
            ((jnorm_encT (tsize v)).1 v (le_refl _)).2]
          rw [hserr]
          simp [encTFields]
        · intro x hx
          rw [hpr x (by omega), hpk x (by omega)]

/-!
## C1: round trip of freshly built trees
-/

/-- Lay a tree out in a fresh heap, serialize its root with the
Structural Codec, and deserialize the resulting document (one fuel
budget for both walks). -/
def roundTrip (fuel : Nat) (t : TVal) : Except String DVal :=
  match serialize fuel (build t []).2 (build t []).1 with
  | some doc => deserialize fuel (.ok doc)
  | none => .error "model artifact: serialize failed"

/-- C1 (corrected): for every acyclic, unshared composite value whose
records do not look like text ranges or diagnostics and avoid the
reserved tag keys (`GoodT`), serializing and deserializing yields the
value's structural image `toDVal` — same kind, same scalar contents,
same ordering for sequences, mapping entries and record keys (text
ranges and diagnostics come back as plain objects in canonical key
order).  The restriction is necessary: see the counterexample, where a
plain record that merely has numeric `start`/`length` keys is summarized
to a text range and loses its other fields. -/
theorem good_value_round_trip (t : TVal) (fuel : Nat)
    (h1 : GoodT t = true) (h2 : tsize t ≤ fuel) :
    roundTrip fuel t = .ok (toDVal t) := by
  obtain ⟨ctx2, hser, _⟩ := (serialize_build fuel).1 t [] (build t []).2
    initSCtx h1 h2 ⟨[], by simp⟩ (by intro a h1a h2a; rfl)
  have hro := serializeValue_resOk fuel (build t []).2 (build t []).1 initSCtx
  rw [hser] at hro
  have hrefs : ctx2.refs = [] := hro.1.2.2
  have hj := (jnorm_encT (tsize t)).1 t (le_refl _)
  have hdoc : mkDoc (encT t) []
      = .obj [("version", .num 1), ("data", encT t), ("refs", .arr [])] := by
    unfold mkDoc
    rw [show jnorm (EVal.obj [("version", .num 1), ("data", encT t),
          ("refs", .arr [])])
        = .obj (jnormFields [("version", .num 1), ("data", encT t),
            ("refs", .arr [])]) from by simp [jnorm]]
    rw [jnormFields_cons_of_ne "version" (.num 1) _ (by simp [jnorm])
      (by simp)]
    rw [jnormFields_cons_of_ne "data" (encT t) _ hj.1 hj.2]
    rw [jnormFields_cons_of_ne "refs" (.arr []) _
      (by simp [jnorm, jnormList]) (by simp)]
    simp [jnormFields]
  have hserialize : serialize fuel (build t []).2 (build t []).1
      = some (.obj [("version", .num 1), ("data", encT t),
          ("refs", .arr [])]) := by
    unfold serialize
    rw [hser]
    show some (mkDoc (encT t) ctx2.refs) = _
    rw [hrefs, hdoc]
  have hdec := (decode_encT fuel).1 t initDCtx (.arr []) h1 h2
  unfold roundTrip
  rw [hserialize]
  show deserialize fuel (.ok (.obj [("version", .num 1), ("data", encT t),
      ("refs", .arr [])])) = .ok (toDVal t)
  rw [show deserialize fuel (.ok (.obj [("version", .num 1),
        ("data", encT t), ("refs", .arr [])]))
      = (match deserializeValue fuel (encT t) initDCtx (.arr []) with
         | .ok d => Except.ok d
         | .thrown m => .error ("Failed to deserialize cache: " ++ m)
         | .out => .error "model artifact: fuel exhausted") from by
    simp [deserialize, jget, jlook, isVersionOne]]
  rw [hdec]

theorem good_value_round_trip_witness :
    roundTrip 4 (.tmap [(.str "k", .num 2)])
      = .ok (toDVal (.tmap [(.str "k", .num 2)])) :=
  good_value_round_trip (.tmap [(.str "k", .num 2)]) 4
    (by simp [GoodT, GoodPairs]) (by simp [tsize, tsizePairs])

/-- Counterexample to C1 as stated: the plain record
`{nodeType: 1, id: 2, start: 3, length: 4}` is an acyclic composite
built purely from supported kinds (a record of scalars), yet its round
trip yields only `{start: 3, length: 4}` — the encoder's `_isTextRange`
probe fires on any record with numeric `start` and `length` keys and
summarizes it, dropping every other field.  Structural equality with the
original fails. -/
theorem good_value_round_trip_counterexample :
    roundTrip 3 (.obj [("nodeType", .num 1), ("id", .num 2),
        ("start", .num 3), ("length", .num 4)])
      = .ok (.obj [("start", .num 3), ("length", .num 4)])
    ∧ toDVal (.obj [("nodeType", .num 1), ("id", .num 2),
        ("start", .num 3), ("length", .num 4)])
      ≠ .obj [("start", .num 3), ("length", .num 4)] := by
  constructor
  · have hb : build (.obj [("nodeType", .num 1), ("id", .num 2),
        ("start", .num 3), ("length", .num 4)]) []
        = (.ref 0, [.hobj [("nodeType", .val (.num 1)),
            ("id", .val (.num 2)), ("start", .val (.num 3)),
            ("length", .val (.num 4))]]) := by
      simp [build, buildFields]
    unfold roundTrip
    rw [hb]
    simp [serialize, serializeValue, lookupSeen, initSCtx,
      serializeObject, serializeDucked, duckKind, isTextRange, isParseNode,
      isDiagnostic, readProp, hProp, hasProp, getOwn, rawScalar,
      mkTextRangeWrapper, mkDoc, jnorm, jnormFields, jnormList,
      deserialize, jget, jlook, isVersionOne, deserializeValue,
      jfieldOpt, destructure, rawOfE, initDCtx, lookupRefs,
      mapTag, setTag, textRangeTag, textRangeCollectionTag, parseNodeTag,
      diagnosticTag, dateTag, regExpTag, circularTag]
  · simp [toDVal, toDValFields]
